import Mathlib

set_option maxRecDepth 100000
set_option maxHeartbeats 2000000

/-!
Shallow embedding of the MRZ (machine-readable zone) decoding pipeline of the
monday-passport-ocr service.  The current parser lives in `src/index.js`
(functions `fixMRZChar`, `cleanMRZLine1`, `findNameEnd`, `cleanMRZLine2`,
`parseMRZ` with its inner `yymmddToDate`); a legacy parser lives in
`src/unnamed/part_000`.  Strings are modelled as `List Char`; JavaScript
string operations (`padEnd`, `substring`, `split`, `replace`, `trim`,
`toUpperCase`, template interpolation of numbers) are modelled by
corresponding total functions on character lists.  The single JS exception
path that can escape `parseMRZ` (the construction of the MRZ-not-found
`Error`, and the `RangeError` thrown by `'<'.repeat(n)` on a negative
count) is modelled with `Except MRZErr`.
-/

namespace MrzOcr

/-- ASCII uppercase letter test, the `[A-Z]` character class of the source. -/
def isAlphaU (c : Char) : Bool := 65 ≤ c.toNat && c.toNat ≤ 90

/-- ASCII lowercase letter test, the `[a-z]` character class. -/
def isLowerC (c : Char) : Bool := 97 ≤ c.toNat && c.toNat ≤ 122

/-- ASCII digit test, the `[0-9]` character class of the source. -/
def isDigitC (c : Char) : Bool := 48 ≤ c.toNat && c.toNat ≤ 57

/-- Strict MRZ alphabet `[A-Z0-9<]` (case sensitive), used by the
`replace(/[^A-Z0-9<]/g, "")` sanitisation in `parseMRZ`. -/
def isMrzChar (c : Char) : Bool := isAlphaU c || isDigitC c || c = '<'

/-- Case-insensitive MRZ alphabet `[A-Z0-9<]` with the `i` flag, used by the
conformance-ratio computation `l.replace(/[^A-Z0-9<]/gi, "").length`. -/
def isMrzCharCI (c : Char) : Bool := isAlphaU c || isLowerC c || isDigitC c || c = '<'

/-- JavaScript whitespace class `\s` restricted to the ASCII range
(space, tab, newline, carriage return, vertical tab, form feed);
used by `l.trim().replace(/\s/g, "")`. -/
def isJsWhite (c : Char) : Bool :=
  c = ' ' || c = '\t' || c = '\n' || c = '\r' || c.toNat = 11 || c.toNat = 12

/-- `String.prototype.toUpperCase` restricted to ASCII. -/
def toUpperChar (c : Char) : Char :=
  if isLowerC c then Char.ofNat (c.toNat - 32) else c

/-- The decimal digit character for `n < 10`. -/
def digitChar (n : Nat) : Char := Char.ofNat (48 + n)

/-- Numeric value of a digit character. -/
def digitVal (c : Char) : Nat := c.toNat - 48

/-- `parseInt(s, 10)` on a string of decimal digits (every call site in the
current parser guarantees an all-digit argument). -/
def digitsToNat (l : List Char) : Nat := l.foldl (fun acc c => 10 * acc + digitVal c) 0

/-- `parseInt(s, 10)` as the legacy parser may call it on arbitrary text:
parses the maximal leading digit run, `none` standing for `NaN`. -/
def jsParseIntHead (l : List Char) : Option Nat :=
  let ds := l.takeWhile isDigitC
  if ds.isEmpty then none else some (digitsToNat ds)

/-- Decimal rendering of a natural number, fuel-indexed so that the
definition is structural (the fuel `n + 1` always suffices). -/
def toDecAux : Nat → Nat → List Char
  | 0, _ => []
  | fuel + 1, n =>
    if n < 10 then [digitChar n]
    else toDecAux fuel (n / 10) ++ [digitChar (n % 10)]

/-- JavaScript `String(n)` / template interpolation of a natural number. -/
def toDec (n : Nat) : List Char := toDecAux (n + 1) n

/-- `String(n).padStart(2, '0')`. -/
def pad2 (n : Nat) : List Char :=
  let s := toDec n
  if s.length = 1 then '0' :: s else s

/-- `String.prototype.trim` (ASCII whitespace). -/
def trimJs (l : List Char) : List Char :=
  ((l.dropWhile isJsWhite).reverse.dropWhile isJsWhite).reverse

/-- `Array.prototype.join(" ")`: concatenate the parts with a single space
between consecutive parts. -/
def joinSpace : List (List Char) → List Char
  | [] => []
  | [p] => p
  | p :: ps => p ++ ' ' :: joinSpace ps

/-- `String.prototype.split("\n")`. -/
def splitNl : List Char → List (List Char)
  | [] => [[]]
  | c :: rest =>
    if c = '\n' then [] :: splitNl rest
    else
      match splitNl rest with
      | [] => [[c]]
      | p :: ps => (c :: p) :: ps

/-- `l.trim().replace(/\s/g, "")`: removing every whitespace character
subsumes the trim. -/
def stripWs (l : List Char) : List Char := l.filter (fun c => !(isJsWhite c))

/-- `raw.padEnd(44, "<")`. -/
def padEnd44 (l : List Char) : List Char := l ++ List.replicate (44 - l.length) '<'

/-- The `digitFixes` lookup object of `fixMRZChar` in `src/index.js`:
`O/Q/D→0, I/L/l→1, Z/z→2, E→3, A/H→4, S→5, G/b→6, T→7, B→8, g/q→9`. -/
def digitFixes (c : Char) : Option Char :=
  if c = 'O' || c = 'Q' || c = 'D' then some '0'
  else if c = 'I' || c = 'L' || c = 'l' then some '1'
  else if c = 'Z' || c = 'z' then some '2'
  else if c = 'E' then some '3'
  else if c = 'A' || c = 'H' then some '4'
  else if c = 'S' then some '5'
  else if c = 'G' || c = 'b' then some '6'
  else if c = 'T' then some '7'
  else if c = 'B' then some '8'
  else if c = 'g' || c = 'q' then some '9'
  else none

/-- `fixMRZChar(ch, expectDigit)` from `src/index.js`: in digit positions the
lookup `digitFixes[ch] || ch`, otherwise the identity. -/
def fixMRZChar (ch : Char) (expectDigit : Bool) : Char :=
  if expectDigit then (digitFixes ch).getD ch else ch

/-- Error surface of `parseMRZ`: the "MRZ not found" `Error` carrying the
candidate count and the raw OCR text, and the `RangeError` thrown by
`'<'.repeat(count)` on a negative count in `cleanMRZLine1`. -/
inductive MRZErr where
  | mrzNotFound (count : Nat) (ocr : List Char)
  | rangeError
deriving DecidableEq, Repr

/-- `findNameEnd(nameSection)` from `src/index.js`: one past the index of the
last `[A-Z]` character, `0` when there is none (a left-to-right scan
updating `lastLetterPos`). -/
def findNameEnd (l : List Char) : Nat :=
  (List.range l.length).foldl (fun acc i => if isAlphaU (l.getD i ' ') then i + 1 else acc) 0

/-- `cleanMRZLine1(raw)` from `src/index.js`: pad to 44 with filler, force
filler at position 1, then replace everything after the last letter of the
name region with filler.  `'<'.repeat(44 - 5 - nameEnd)` throws a
`RangeError` when the count is negative, i.e. when `nameEnd > 39`. -/
def cleanMRZLine1 (raw : List Char) : Except MRZErr (List Char) :=
  let line0 := padEnd44 raw
  let line := if line0.getD 1 '<' ≠ '<' then line0.take 1 ++ '<' :: line0.drop 2 else line0
  let nameEnd := findNameEnd (line.drop 5)
  if 0 < nameEnd then
    if 39 < nameEnd then .error .rangeError
    else .ok (line.take 5 ++ (line.drop 5).take nameEnd ++ List.replicate (39 - nameEnd) '<')
  else .ok line

/-- The `digitPositions` array of `cleanMRZLine2`. -/
def digitPositions : List Nat := [9, 13, 14, 15, 16, 17, 18, 19, 21, 22, 23, 24, 25, 26, 27, 42, 43]

/-- One iteration of the `for (const pos of digitPositions)` loop of
`cleanMRZLine2`. -/
def fixDigitStep (cs : List Char) (pos : Nat) : List Char :=
  if pos < cs.length && !(isDigitC (cs.getD pos ' ')) then
    cs.set pos (fixMRZChar (cs.getD pos ' ') true)
  else cs

/-- The nationality heuristic `/^[T7][UVW][R8]$/i.test(nat)`. -/
def natLooksTUR (n : List Char) : Bool :=
  match n with
  | [a, b, c] =>
    (a = 'T' || a = 't' || a = '7') &&
    (b = 'U' || b = 'u' || b = 'V' || b = 'v' || b = 'W' || b = 'w') &&
    (c = 'R' || c = 'r' || c = '8')
  | _ => false

/-- `cleanMRZLine2(raw)` from `src/index.js`: pad to 44 with filler, remap
possible letter misreads at the digit positions, repair the nationality
field (positions 10-12) towards `TUR`, and repair the sex field
(position 20) from the confusable set `W/N/H` to `M`. -/
def cleanMRZLine2 (raw : List Char) : List Char :=
  let line := padEnd44 raw
  let cs1 := digitPositions.foldl fixDigitStep line
  let nat := (cs1.drop 10).take 3
  let cs2 :=
    if nat ≠ ['T', 'U', 'R'] && natLooksTUR nat then
      ((cs1.set 10 'T').set 11 'U').set 12 'R'
    else cs1
  let g := cs2.getD 20 ' '
  if !(g = 'M' || g = 'F' || g = '<') && (g = 'W' || g = 'N' || g = 'H') then
    cs2.set 20 'M'
  else cs2

/-- The replacement `nameSection.replace(/[^A-Z]{2,}/g, m => '<'.repeat(m.length))`
as the left-to-right scan the regex engine performs; the flag records whether
the scan is inside a matched run (in which case every further non-letter is
part of the greedy match and becomes `<`). -/
def fixRunsF : Bool → List Char → List Char
  | _, [] => []
  | true, c :: rest =>
    if !(isAlphaU c) then '<' :: fixRunsF true rest else c :: fixRunsF false rest
  | false, [c] => [c]
  | false, a :: b :: rest =>
    if !(isAlphaU a) && !(isAlphaU b) then '<' :: '<' :: fixRunsF true rest
    else a :: fixRunsF false (b :: rest)

/-- The run-collapsing replacement, started outside any run. -/
def fixRuns (l : List Char) : List Char := fixRunsF false l

/-- The replacement `.replace(/([A-Z])([^A-Z])([A-Z])/g, '$1<$3')` as the
non-overlapping left-to-right scan the regex engine performs: after a match
the scan resumes past the matched trailing letter. -/
def fixSingles : List Char → List Char
  | a :: x :: b :: rest =>
    if isAlphaU a && !(isAlphaU x) && isAlphaU b then a :: '<' :: b :: fixSingles rest
    else a :: fixSingles (x :: b :: rest)
  | l => l

/-- Prepend a character to the first part of a split result. -/
def cons1 (c : Char) (r : List (List Char)) : List (List Char) :=
  match r with
  | [] => [[c]]
  | p :: ps => (c :: p) :: ps

/-- Prepend a whole block to the first part of a split result (used to state
how the splits act on a leading separator-free block). -/
def consAll (a : List Char) (r : List (List Char)) : List (List Char) :=
  match r with
  | [] => [a]
  | p :: ps => (a ++ p) :: ps

/-- `cleanedNames.split(/<<+/)`: left-to-right scan; on two consecutive
fillers the greedy match consumes the whole filler run (flag `true`). -/
def splitFillF : Bool → List Char → List (List Char)
  | true, [] => [[]]
  | true, c :: rest =>
    if c = '<' then splitFillF true rest else cons1 c (splitFillF false rest)
  | false, [] => [[]]
  | false, '<' :: '<' :: rest => [] :: splitFillF true rest
  | false, c :: rest => cons1 c (splitFillF false rest)

/-- `split(/<<+/)`, started outside any separator. -/
def splitFill (l : List Char) : List (List Char) := splitFillF false l

/-- Legacy `nameSection.split("<<")`: each separator is exactly two fillers. -/
def splitLit : List Char → List (List Char)
  | '<' :: '<' :: rest => [] :: splitLit rest
  | c :: rest => cons1 c (splitLit rest)
  | [] => [[]]

/-- Position `i` of `l` holds a non-letter with a letter immediately on both
sides: the match condition of the regex `([A-Z])([^A-Z])([A-Z])` at offset
`i - 1` (used to state the single-noise-character rewrite claims). -/
def flankedAt (l : List Char) (i : Nat) : Prop :=
  1 ≤ i ∧ i + 1 < l.length ∧ isAlphaU (l.getD (i - 1) ' ') = true ∧
    isAlphaU (l.getD i ' ') = false ∧ isAlphaU (l.getD (i + 1) ' ') = true

instance (l : List Char) (i : Nat) : Decidable (flankedAt l i) := by
  unfold flankedAt
  infer_instance

/-- No two flanked positions of `l` share a flanking letter (they would be
exactly two apart); under this condition the non-overlapping left-to-right
regex scan reaches every flanked position. -/
def noTwoClose (l : List Char) : Prop :=
  ∀ j : Nat, j < l.length → ¬(flankedAt l j ∧ flankedAt l (j + 2))

instance (l : List Char) : Decidable (noTwoClose l) := by
  unfold noTwoClose
  infer_instance

/-- `candidates[i].toUpperCase().replace(/[^A-Z0-9<]/g, "")`. -/
def sanitizeMrz (l : List Char) : List Char := (l.map toUpperChar).filter isMrzChar

/-- The candidate filter of the current `parseMRZ`: length at least 28 and
conformance ratio `mrzChars / l.length > 0.85` (stated exactly over the
rationals: `20 * mrzChars > 17 * length`). -/
def isCandidate (l : List Char) : Bool :=
  !(l.length < 28) && 17 * l.length < 20 * (l.filter isMrzCharCI).length

/-- `ocrText.split("\n").map(l => l.trim().replace(/\s/g, ""))` followed by
the candidate filter. -/
def candidatesOf (text : List Char) : List (List Char) :=
  ((splitNl text).map stripWs).filter isCandidate

/-- The inner `yymmddToDate` of the current `parseMRZ`. -/
def yymmddToDate (raw : List Char) : List Char :=
  if raw.length ≠ 6 then []
  else
    let cleaned := raw.filter isDigitC
    if cleaned.length ≠ 6 then []
    else
      let yy := digitsToNat (cleaned.take 2)
      let mm := digitsToNat ((cleaned.drop 2).take 2)
      let dd := digitsToNat ((cleaned.drop 4).take 2)
      if mm < 1 || 12 < mm || dd < 1 || 31 < dd then []
      else
        let yyyy := if 50 < yy then 1900 + yy else 2000 + yy
        pad2 dd ++ '/' :: (pad2 mm ++ '/' :: toDec yyyy)

/-- The structured result of `parseMRZ`, field for field. -/
structure PassportRecord where
  first_name : List Char
  last_name : List Char
  gender : List Char
  passport_number : List Char
  national_id_number : List Char
  date_of_birth : List Char
  date_of_expiry : List Char
deriving DecidableEq, Repr

/-- The body of the current `parseMRZ` after the two candidate lines have
been selected and sanitised: normalisation, character-class correction,
field decomposition and value formatting. -/
def parseTwo (line1raw line2raw : List Char) : Except MRZErr PassportRecord :=
  match cleanMRZLine1 line1raw with
  | .error e => .error e
  | .ok line1 =>
    let line2 := cleanMRZLine2 line2raw
    let nameSection := line1.drop 5
    let cleanedNames := fixSingles (fixRuns nameSection)
    let nameParts := splitFill cleanedNames
    let lastName :=
      trimJs (((nameParts.getD 0 []).map (fun c => if c = '<' then ' ' else c)).filter
        (fun c => isAlphaU c || c = ' '))
    let firstName :=
      trimJs (((joinSpace (nameParts.drop 1)).map (fun c => if c = '<' then ' ' else c)).filter
        (fun c => isAlphaU c || c = ' '))
    let passportNumber := trimJs ((line2.take 9).filter (fun c => !(c = '<')))
    let dobRaw := (line2.drop 13).take 6
    let gender := (line2.drop 20).take 1
    let expiryRaw := (line2.drop 21).take 6
    let personalNumber := trimJs (((line2.drop 28).take 14).filter (fun c => !(c = '<')))
    let genderText := if gender = ['M'] then ['E'] else if gender = ['F'] then ['K'] else gender
    .ok
      { first_name := firstName
        last_name := lastName
        gender := genderText
        passport_number := passportNumber
        national_id_number := personalNumber
        date_of_birth := yymmddToDate dobRaw
        date_of_expiry := yymmddToDate expiryRaw }


/-- Decidable equality for the `Except` results of the two parsers. -/
instance instDecEqExcept {e a : Type} [DecidableEq e] [DecidableEq a] :
    DecidableEq (Except e a) := fun x y =>
  match x, y with
  | .error u, .error v =>
    if h : u = v then .isTrue (by rw [h]) else .isFalse (by intro hc; cases hc; exact h rfl)
  | .error _, .ok _ => .isFalse (by intro hc; cases hc)
  | .ok _, .error _ => .isFalse (by intro hc; cases hc)
  | .ok u, .ok v =>
    if h : u = v then .isTrue (by rw [h]) else .isFalse (by intro hc; cases hc; exact h rfl)

/-- `parseMRZ(ocrText)` from `src/index.js`. -/
def parseMRZ (text : List Char) : Except MRZErr PassportRecord :=
  let candidates := candidatesOf text
  if candidates.length < 2 then .error (.mrzNotFound candidates.length text)
  else
    parseTwo (sanitizeMrz (candidates.getD (candidates.length - 2) []))
      (sanitizeMrz (candidates.getD (candidates.length - 1) []))

namespace Legacy

/-- The legacy MRZ pattern `/^[A-Z0-9<]{30,50}$/` of `src/unnamed/part_000`. -/
def isCandidate (l : List Char) : Bool :=
  30 ≤ l.length && l.length ≤ 50 && l.all isMrzChar

/-- Candidate extraction of the legacy `parseMRZ`. -/
def candidatesOf (text : List Char) : List (List Char) :=
  ((splitNl text).map stripWs).filter isCandidate

/-- The inner `yymmddToDate` of the legacy `parseMRZ`: no digit check beyond
rejecting `<`, no month/day range validation, and string-level century
prefixing (with `parseInt` possibly producing `NaN`, which fails the
`yy > 50` comparison). -/
def yymmddToDate (raw : List Char) : List Char :=
  if raw.length ≠ 6 || raw.contains '<' then []
  else
    let yyN := jsParseIntHead (raw.take 2)
    let mm := (raw.drop 2).take 2
    let dd := (raw.drop 4).take 2
    let century :=
      match yyN with
      | some v => if 50 < v then ['1', '9'] else ['2', '0']
      | none => ['2', '0']
    dd ++ '/' :: (mm ++ '/' :: (century ++ raw.take 2))

/-- `parseMRZ(ocrText)` from `src/unnamed/part_000`. -/
def parseMRZ (text : List Char) : Except MRZErr PassportRecord :=
  let candidates := candidatesOf text
  if candidates.length < 2 then .error (.mrzNotFound candidates.length text)
  else
    let line1 := padEnd44 (candidates.getD (candidates.length - 2) [])
    let line2 := padEnd44 (candidates.getD (candidates.length - 1) [])
    let nameParts := splitLit (line1.drop 5)
    let lastName := trimJs ((nameParts.getD 0 []).map (fun c => if c = '<' then ' ' else c))
    let firstName :=
      trimJs ((joinSpace (nameParts.drop 1)).map (fun c => if c = '<' then ' ' else c))
    let passportNumber := trimJs ((line2.take 9).filter (fun c => !(c = '<')))
    let dobRaw := (line2.drop 13).take 6
    let gender := (line2.drop 20).take 1
    let expiryRaw := (line2.drop 21).take 6
    let personalNumber := trimJs (((line2.drop 28).take 14).filter (fun c => !(c = '<')))
    let genderText := if gender = ['M'] then ['E'] else if gender = ['F'] then ['K'] else gender
    .ok
      { first_name := firstName
        last_name := lastName
        gender := genderText
        passport_number := passportNumber
        national_id_number := personalNumber
        date_of_birth := yymmddToDate dobRaw
        date_of_expiry := yymmddToDate expiryRaw }

end Legacy

/-! ### Character-class bridge lemmas -/

theorem char_eq_toNat {c d : Char} : c = d ↔ c.toNat = d.toNat := by
  constructor
  · intro h; exact congrArg Char.toNat h
  · intro h
    calc c = Char.ofNat c.toNat := (Char.ofNat_toNat c).symm
    _ = Char.ofNat d.toNat := by rw [h]
    _ = d := Char.ofNat_toNat d

theorem mrz_not_white {c : Char} (h : isMrzChar c = true) : isJsWhite c = false := by
  simp only [isMrzChar, isAlphaU, isDigitC, isJsWhite, char_eq_toNat, Bool.or_eq_true,
    Bool.and_eq_true, decide_eq_true_eq, Bool.or_eq_false_iff, decide_eq_false_iff_not] at h ⊢
  have h1 : (' ').toNat = 32 := by decide
  have h2 : ('\t').toNat = 9 := by decide
  have h3 : ('\n').toNat = 10 := by decide
  have h4 : ('\r').toNat = 13 := by decide
  have h5 : ('<').toNat = 60 := by decide
  rw [h1, h2, h3, h4] at *
  rw [h5] at h
  omega

theorem mrz_not_newline {c : Char} (h : isMrzChar c = true) : c ≠ '\n' := by
  intro hc
  have := mrz_not_white h
  subst hc
  simp [isJsWhite] at this

theorem mrz_not_lower {c : Char} (h : isMrzChar c = true) : isLowerC c = false := by
  simp only [isMrzChar, isAlphaU, isDigitC, isLowerC, char_eq_toNat, Bool.or_eq_true,
    Bool.and_eq_true, decide_eq_true_eq, Bool.and_eq_false_iff,
    Nat.not_le, decide_eq_false_iff_not] at h ⊢
  have h5 : ('<').toNat = 60 := by decide
  rw [h5] at h
  omega

theorem mrz_of_alpha {c : Char} (h : isAlphaU c = true) : isMrzChar c = true := by
  simp [isMrzChar, h]

theorem mrz_of_digit {c : Char} (h : isDigitC c = true) : isMrzChar c = true := by
  simp [isMrzChar, h]

theorem mrzCI_of_mrz {c : Char} (h : isMrzChar c = true) : isMrzCharCI c = true := by
  simp only [isMrzChar, Bool.or_eq_true] at h
  simp only [isMrzCharCI, Bool.or_eq_true]
  tauto

theorem alpha_not_white {c : Char} (h : isAlphaU c = true) : isJsWhite c = false :=
  mrz_not_white (mrz_of_alpha h)

theorem digit_ne_filler {c : Char} (h : isDigitC c = true) : c ≠ '<' := by
  intro hc
  subst hc
  simp [isDigitC] at h

theorem alpha_ne_filler {c : Char} (h : isAlphaU c = true) : c ≠ '<' := by
  intro hc
  subst hc
  simp [isAlphaU] at h

theorem filler_not_alpha : isAlphaU '<' = false := by decide

theorem space_not_alpha : isAlphaU ' ' = false := by decide

theorem digit_not_alpha {c : Char} (h : isDigitC c = true) : isAlphaU c = false := by
  simp only [isDigitC, Bool.and_eq_true, decide_eq_true_eq] at h
  simp only [isAlphaU, Bool.and_eq_false_iff, decide_eq_false_iff_not, Nat.not_le]
  omega

theorem toUpperChar_of_not_lower {c : Char} (h : isLowerC c = false) : toUpperChar c = c := by
  simp [toUpperChar, h]

/-! ### getD access helpers -/

theorem getD_set_self {α : Type} {l : List α} {i : Nat} (a d : α) (h : i < l.length) :
    (l.set i a).getD i d = a := by
  simp [List.getD_eq_getD_get?, List.get?_eq_getElem?, List.getElem?_set_eq_of_lt a h]

theorem getD_set_ne {α : Type} {l : List α} {i j : Nat} (a d : α) (h : i ≠ j) :
    (l.set i a).getD j d = l.getD j d := by
  simp [List.getD_eq_getD_get?, List.get?_eq_getElem?, List.getElem?_set_ne h]

theorem getD_drop {α : Type} (l : List α) (n i : Nat) (d : α) :
    (l.drop n).getD i d = l.getD (n + i) d := by
  simp [List.getD_eq_getD_get?, List.get?_eq_getElem?, List.getElem?_drop]

theorem getD_cons_succ {α : Type} (c : α) (l : List α) (n : Nat) (d : α) :
    (c :: l).getD (n + 1) d = l.getD n d := rfl

theorem getD_append_len {α : Type} {a : List α} (b : List α) {n : Nat} (i : Nat) (d : α)
    (h : a.length = n) : (a ++ b).getD (n + i) d = b.getD i d := by
  subst h
  rw [List.getD_append_right a b d _ (Nat.le_add_right _ _), Nat.add_sub_cancel_left]

theorem getD_mem {α : Type} {l : List α} {n : Nat} (d : α) (h : n < l.length) :
    l.getD n d ∈ l := by
  rw [List.getD_eq_getElem l d h]
  exact List.getElem_mem h

theorem set_append_add {α : Type} {a : List α} (b : List α) (i : Nat) (x : α) :
    (a ++ b).set (a.length + i) x = a ++ b.set i x := by
  induction a with
  | nil => simp
  | cons c t ih => simp [List.set, ih, Nat.succ_add]

/-! ### Digit-fix loop characterisation -/

theorem getD_default_irrel {l : List Char} {p : Nat} (d d' : Char) (h : p < l.length) :
    l.getD p d = l.getD p d' := by
  rw [List.getD_eq_getElem l d h, List.getD_eq_getElem l d' h]

theorem padEnd44_length (l : List Char) : (padEnd44 l).length = max 44 l.length := by
  simp [padEnd44]
  omega

theorem padEnd44_eq_self {l : List Char} (h : l.length = 44) : padEnd44 l = l := by
  simp [padEnd44, h]

theorem fixDigitStep_length (cs : List Char) (p : Nat) :
    (fixDigitStep cs p).length = cs.length := by
  unfold fixDigitStep
  split <;> simp [List.length_set]

theorem fixDigitStep_getD_ne (cs : List Char) {p q : Nat} (d : Char) (h : p ≠ q) :
    (fixDigitStep cs p).getD q d = cs.getD q d := by
  unfold fixDigitStep
  split
  · exact getD_set_ne _ d h
  · rfl

theorem fixDigitStep_id (cs : List Char) {p : Nat} (h : isDigitC (cs.getD p ' ') = true) :
    fixDigitStep cs p = cs := by
  unfold fixDigitStep
  have hc : (decide (p < cs.length) && !(isDigitC (cs.getD p ' '))) = false := by
    rw [h]
    simp
  rw [hc]
  rfl

theorem fixDigitStep_set (cs : List Char) {p : Nat} (hlt : p < cs.length)
    (h : isDigitC (cs.getD p ' ') = false) :
    fixDigitStep cs p = cs.set p (fixMRZChar (cs.getD p ' ') true) := by
  unfold fixDigitStep
  have hc : (decide (p < cs.length) && !(isDigitC (cs.getD p ' '))) = true := by
    rw [h]
    simp [hlt]
  rw [hc]
  rfl

theorem fixDigitStep_getD_self (cs : List Char) {p : Nat} (d : Char) (h : p < cs.length) :
    (fixDigitStep cs p).getD p d =
      if isDigitC (cs.getD p ' ') then cs.getD p d
      else fixMRZChar (cs.getD p ' ') true := by
  by_cases hd : isDigitC (cs.getD p ' ') = true
  · rw [fixDigitStep_id cs hd, if_pos hd]
  · rw [fixDigitStep_set cs h (Bool.not_eq_true _ ▸ hd), if_neg hd]
    exact getD_set_self _ d h

theorem foldl_fix_length (L : List Nat) (cs : List Char) :
    (L.foldl fixDigitStep cs).length = cs.length := by
  induction L generalizing cs with
  | nil => rfl
  | cons q L ih => simp [List.foldl_cons, ih, fixDigitStep_length]

theorem foldl_fix_getD_notmem (L : List Nat) (cs : List Char) {q : Nat} (d : Char)
    (h : q ∉ L) : (L.foldl fixDigitStep cs).getD q d = cs.getD q d := by
  induction L generalizing cs with
  | nil => rfl
  | cons r L ih =>
    simp only [List.mem_cons, not_or] at h
    rw [List.foldl_cons, ih (fixDigitStep cs r) h.2, fixDigitStep_getD_ne cs d (Ne.symm h.1)]

theorem foldl_fix_getD_mem (L : List Nat) (cs : List Char) {p : Nat} (d : Char)
    (hnd : L.Nodup) (hp : p ∈ L) (hlt : p < cs.length) :
    (L.foldl fixDigitStep cs).getD p d =
      if isDigitC (cs.getD p ' ') then cs.getD p d
      else fixMRZChar (cs.getD p ' ') true := by
  induction L generalizing cs with
  | nil => cases hp
  | cons q L ih =>
    have hq : q ∉ L := (List.nodup_cons.mp hnd).1
    have hL : L.Nodup := (List.nodup_cons.mp hnd).2
    rw [List.foldl_cons]
    rcases List.mem_cons.mp hp with rfl | hpL
    · rw [foldl_fix_getD_notmem L _ d hq]
      exact fixDigitStep_getD_self cs d hlt
    · have hpq : q ≠ p := fun h => hq (h ▸ hpL)
      have hlt' : p < (fixDigitStep cs q).length := by rw [fixDigitStep_length]; exact hlt
      rw [ih (fixDigitStep cs q) hL hpL hlt', fixDigitStep_getD_ne cs d hpq,
        fixDigitStep_getD_ne cs ' ' hpq]

theorem foldl_fix_id (L : List Nat) (cs : List Char)
    (h : ∀ p ∈ L, isDigitC (cs.getD p ' ') = true) : L.foldl fixDigitStep cs = cs := by
  induction L with
  | nil => rfl
  | cons q L ih =>
    rw [List.foldl_cons, fixDigitStep_id cs (h q (List.mem_cons_self q L))]
    exact ih fun p hp => h p (List.mem_cons_of_mem q hp)

/-! ### cleanMRZLine2 pointwise characterisation -/

theorem cleanMRZLine2_length (raw : List Char) :
    (cleanMRZLine2 raw).length = max 44 raw.length := by
  unfold cleanMRZLine2
  simp only []
  split
  · split
    · simp [List.length_set, foldl_fix_length, padEnd44_length]
    · simp [List.length_set, foldl_fix_length, padEnd44_length]
  · split
    · simp [List.length_set, foldl_fix_length, padEnd44_length]
    · simp [List.length_set, foldl_fix_length, padEnd44_length]

theorem natGenderStage_getD_off (cs1 : List Char) {p : Nat} (d : Char)
    (h10 : p ≠ 10) (h11 : p ≠ 11) (h12 : p ≠ 12) (h20 : p ≠ 20) :
    (let nat := (cs1.drop 10).take 3
     let cs2 :=
       if nat ≠ ['T', 'U', 'R'] && natLooksTUR nat then
         ((cs1.set 10 'T').set 11 'U').set 12 'R'
       else cs1
     let g := cs2.getD 20 ' '
     if !(g = 'M' || g = 'F' || g = '<') && (g = 'W' || g = 'N' || g = 'H') then
       cs2.set 20 'M'
     else cs2).getD p d = cs1.getD p d := by
  simp only []
  split
  · split
    · rw [getD_set_ne _ d (Ne.symm h20), getD_set_ne _ d (Ne.symm h12),
        getD_set_ne _ d (Ne.symm h11), getD_set_ne _ d (Ne.symm h10)]
    · rw [getD_set_ne _ d (Ne.symm h12), getD_set_ne _ d (Ne.symm h11),
        getD_set_ne _ d (Ne.symm h10)]
  · split
    · rw [getD_set_ne _ d (Ne.symm h20)]
    · rfl

theorem natGenderStage_getD_20 (cs1 : List Char) (d : Char) (h : 20 < cs1.length) :
    (let nat := (cs1.drop 10).take 3
     let cs2 :=
       if nat ≠ ['T', 'U', 'R'] && natLooksTUR nat then
         ((cs1.set 10 'T').set 11 'U').set 12 'R'
       else cs1
     let g := cs2.getD 20 ' '
     if !(g = 'M' || g = 'F' || g = '<') && (g = 'W' || g = 'N' || g = 'H') then
       cs2.set 20 'M'
     else cs2).getD 20 d =
    if !(cs1.getD 20 ' ' = 'M' || cs1.getD 20 ' ' = 'F' || cs1.getD 20 ' ' = '<') &&
        (cs1.getD 20 ' ' = 'W' || cs1.getD 20 ' ' = 'N' || cs1.getD 20 ' ' = 'H') then 'M'
    else cs1.getD 20 d := by
  simp only []
  have hC2 : ∀ dd : Char,
      (if (cs1.drop 10).take 3 ≠ ['T', 'U', 'R'] && natLooksTUR ((cs1.drop 10).take 3) then
          ((cs1.set 10 'T').set 11 'U').set 12 'R'
        else cs1).getD 20 dd = cs1.getD 20 dd := by
    intro dd
    split
    · rw [getD_set_ne _ dd (by omega), getD_set_ne _ dd (by omega), getD_set_ne _ dd (by omega)]
    · rfl
  have hlen :
      (if (cs1.drop 10).take 3 ≠ ['T', 'U', 'R'] && natLooksTUR ((cs1.drop 10).take 3) then
          ((cs1.set 10 'T').set 11 'U').set 12 'R'
        else cs1).length = cs1.length := by
    split
    · simp [List.length_set]
    · rfl
  rw [hC2 ' ']
  split
  · rw [getD_set_self _ d (by rw [hlen]; exact h)]
  · exact hC2 d

theorem cleanMRZLine2_getD_off (raw : List Char) {p : Nat} (d : Char)
    (h10 : p ≠ 10) (h11 : p ≠ 11) (h12 : p ≠ 12) (h20 : p ≠ 20)
    (hdp : p ∉ digitPositions) :
    (cleanMRZLine2 raw).getD p d = (padEnd44 raw).getD p d := by
  unfold cleanMRZLine2
  have h1 := natGenderStage_getD_off (digitPositions.foldl fixDigitStep (padEnd44 raw))
    d h10 h11 h12 h20
  simp only [] at h1 ⊢
  rw [h1]
  exact foldl_fix_getD_notmem _ _ d hdp

theorem cleanMRZLine2_getD_digitpos (raw : List Char) {p : Nat} (d : Char)
    (hp : p ∈ digitPositions) :
    (cleanMRZLine2 raw).getD p d =
      if isDigitC ((padEnd44 raw).getD p ' ') then (padEnd44 raw).getD p d
      else fixMRZChar ((padEnd44 raw).getD p ' ') true := by
  have hfacts : p ≠ 10 ∧ p ≠ 11 ∧ p ≠ 12 ∧ p ≠ 20 ∧ p < 44 := by
    simp only [digitPositions, List.mem_cons, List.not_mem_nil, or_false] at hp
    omega
  obtain ⟨h10, h11, h12, h20, h44⟩ := hfacts
  have hlt : p < (padEnd44 raw).length := by rw [padEnd44_length]; omega
  have hnodup : digitPositions.Nodup := by decide
  unfold cleanMRZLine2
  have h1 := natGenderStage_getD_off (digitPositions.foldl fixDigitStep (padEnd44 raw))
    d h10 h11 h12 h20
  simp only [] at h1 ⊢
  rw [h1]
  exact foldl_fix_getD_mem digitPositions (padEnd44 raw) d hnodup hp hlt

theorem cleanMRZLine2_getD_20 (raw : List Char) (d : Char) :
    (cleanMRZLine2 raw).getD 20 d =
      if !((padEnd44 raw).getD 20 ' ' = 'M' || (padEnd44 raw).getD 20 ' ' = 'F' ||
            (padEnd44 raw).getD 20 ' ' = '<') &&
          ((padEnd44 raw).getD 20 ' ' = 'W' || (padEnd44 raw).getD 20 ' ' = 'N' ||
            (padEnd44 raw).getD 20 ' ' = 'H') then 'M'
      else (padEnd44 raw).getD 20 d := by
  have h20 : (20 : Nat) ∉ digitPositions := by decide
  have hf : ∀ dd : Char,
      (digitPositions.foldl fixDigitStep (padEnd44 raw)).getD 20 dd = (padEnd44 raw).getD 20 dd :=
    fun dd => foldl_fix_getD_notmem _ _ dd h20
  have hlt : 20 < (digitPositions.foldl fixDigitStep (padEnd44 raw)).length := by
    rw [foldl_fix_length, padEnd44_length]
    omega
  unfold cleanMRZLine2
  have h1 := natGenderStage_getD_20 (digitPositions.foldl fixDigitStep (padEnd44 raw)) d hlt
  simp only [] at h1 ⊢
  rw [h1, hf ' ', hf d]

/-! ### Name-region rewrite characterisation -/

theorem getD_cons_zero (c : Char) (l : List Char) (d : Char) : (c :: l).getD 0 d = c := rfl

theorem fixRunsF_nil (f : Bool) : fixRunsF f [] = [] := by cases f <;> rfl

theorem fixRunsF_true_cons_nonalpha {c : Char} (rest : List Char) (h : isAlphaU c = false) :
    fixRunsF true (c :: rest) = '<' :: fixRunsF true rest := by
  simp [fixRunsF, h]

theorem fixRunsF_true_cons_alpha {c : Char} (rest : List Char) (h : isAlphaU c = true) :
    fixRunsF true (c :: rest) = c :: fixRunsF false rest := by
  simp [fixRunsF, h]

theorem fixRunsF_false_single (c : Char) : fixRunsF false [c] = [c] := rfl

theorem fixRunsF_false_two_nonalpha {a b : Char} (rest : List Char)
    (ha : isAlphaU a = false) (hb : isAlphaU b = false) :
    fixRunsF false (a :: b :: rest) = '<' :: '<' :: fixRunsF true rest := by
  simp [fixRunsF, ha, hb]

theorem fixRunsF_false_cons_other {a b : Char} (rest : List Char)
    (h : isAlphaU a = true ∨ isAlphaU b = true) :
    fixRunsF false (a :: b :: rest) = a :: fixRunsF false (b :: rest) := by
  rcases h with h | h <;> simp [fixRunsF, h]

theorem fixRunsF_length (flag : Bool) (l : List Char) :
    (fixRunsF flag l).length = l.length := by
  induction flag, l using fixRunsF.induct with
  | case1 f => rw [fixRunsF_nil]
  | case2 c rest h ih =>
    rw [fixRunsF_true_cons_nonalpha rest (by simpa using h)]
    simp [ih]
  | case3 c rest h ih =>
    rw [fixRunsF_true_cons_alpha rest (by simpa using h)]
    simp [ih]
  | case4 c => rfl
  | case5 a b rest h ih =>
    rw [Bool.and_eq_true] at h
    rw [fixRunsF_false_two_nonalpha rest (by simpa using h.1) (by simpa using h.2)]
    simp [ih]
  | case6 a b rest h ih =>
    rw [Bool.and_eq_true] at h
    have h' : isAlphaU a = true ∨ isAlphaU b = true := by
      by_contra hc
      push_neg at hc
      exact h ⟨by simp [Bool.not_eq_true] at hc ⊢; exact hc.1,
        by simp [Bool.not_eq_true] at hc ⊢; exact hc.2⟩
    rw [fixRunsF_false_cons_other rest h']
    simp [ih]

theorem fixRunsF_getD_cases (flag : Bool) (l : List Char) (i : Nat) (d : Char) :
    (fixRunsF flag l).getD i d = l.getD i d ∨
      ((fixRunsF flag l).getD i d = '<' ∧ isAlphaU (l.getD i d) = false) := by
  induction flag, l using fixRunsF.induct generalizing i with
  | case1 f => left; rw [fixRunsF_nil]
  | case2 c rest h ih =>
    have hc : isAlphaU c = false := by simpa using h
    rw [fixRunsF_true_cons_nonalpha rest hc]
    cases i with
    | zero => right; exact ⟨rfl, hc⟩
    | succ n => rw [getD_cons_succ, getD_cons_succ]; exact ih n
  | case3 c rest h ih =>
    rw [fixRunsF_true_cons_alpha rest (by simpa using h)]
    cases i with
    | zero => left; rfl
    | succ n => rw [getD_cons_succ, getD_cons_succ]; exact ih n
  | case4 c => left; rfl
  | case5 a b rest h ih =>
    rw [Bool.and_eq_true] at h
    have ha : isAlphaU a = false := by simpa using h.1
    have hb : isAlphaU b = false := by simpa using h.2
    rw [fixRunsF_false_two_nonalpha rest ha hb]
    match i with
    | 0 => right; exact ⟨rfl, ha⟩
    | 1 => right; exact ⟨rfl, hb⟩
    | n + 2 =>
      rw [getD_cons_succ, getD_cons_succ, getD_cons_succ, getD_cons_succ]
      exact ih n
  | case6 a b rest h ih =>
    rw [Bool.and_eq_true] at h
    have h' : isAlphaU a = true ∨ isAlphaU b = true := by
      by_contra hc
      push_neg at hc
      exact h ⟨by simp [Bool.not_eq_true] at hc ⊢; exact hc.1,
        by simp [Bool.not_eq_true] at hc ⊢; exact hc.2⟩
    rw [fixRunsF_false_cons_other rest h']
    cases i with
    | zero => left; rfl
    | succ n => rw [getD_cons_succ, getD_cons_succ]; exact ih n

theorem fixRunsF_alpha (flag : Bool) (l : List Char) (i : Nat) (d : Char) :
    isAlphaU ((fixRunsF flag l).getD i d) = isAlphaU (l.getD i d) := by
  rcases fixRunsF_getD_cases flag l i d with h | ⟨h1, h2⟩
  · rw [h]
  · rw [h1, h2]; exact filler_not_alpha

theorem fixRunsF_true_head (l : List Char) (d : Char) (h0 : 0 < l.length)
    (h : isAlphaU (l.getD 0 d) = false) : (fixRunsF true l).getD 0 d = '<' := by
  cases l with
  | nil => simp at h0
  | cons c rest =>
    rw [getD_cons_zero] at h
    rw [fixRunsF_true_cons_nonalpha rest h]
    rfl

theorem fixRunsF_run (flag : Bool) (l : List Char) (i : Nat) (d : Char)
    (hlen : i + 1 < l.length) (h1 : isAlphaU (l.getD i d) = false)
    (h2 : isAlphaU (l.getD (i + 1) d) = false) :
    (fixRunsF flag l).getD i d = '<' ∧ (fixRunsF flag l).getD (i + 1) d = '<' := by
  induction flag, l using fixRunsF.induct generalizing i with
  | case1 f => simp at hlen
  | case2 c rest h ih =>
    have hc : isAlphaU c = false := by simpa using h
    rw [fixRunsF_true_cons_nonalpha rest hc]
    cases i with
    | zero =>
      refine ⟨rfl, ?_⟩
      rw [getD_cons_succ]
      refine fixRunsF_true_head rest d ?_ ?_
      · simp only [List.length_cons] at hlen; omega
      · rw [getD_cons_succ] at h2; exact h2
    | succ n =>
      rw [getD_cons_succ, getD_cons_succ]
      rw [getD_cons_succ] at h1 h2
      exact ih n (by simp only [List.length_cons] at hlen; omega) h1 h2
  | case3 c rest h ih =>
    have hc : isAlphaU c = true := by simpa using h
    rw [fixRunsF_true_cons_alpha rest hc]
    cases i with
    | zero => rw [getD_cons_zero] at h1; rw [hc] at h1; cases h1
    | succ n =>
      rw [getD_cons_succ, getD_cons_succ]
      rw [getD_cons_succ] at h1 h2
      exact ih n (by simp only [List.length_cons] at hlen; omega) h1 h2
  | case4 c => simp at hlen
  | case5 a b rest h ih =>
    rw [Bool.and_eq_true] at h
    have ha : isAlphaU a = false := by simpa using h.1
    have hb : isAlphaU b = false := by simpa using h.2
    rw [fixRunsF_false_two_nonalpha rest ha hb]
    match i with
    | 0 => exact ⟨rfl, rfl⟩
    | 1 =>
      refine ⟨rfl, ?_⟩
      rw [getD_cons_succ, getD_cons_succ]
      refine fixRunsF_true_head rest d ?_ ?_
      · simp only [List.length_cons] at hlen; omega
      · rw [getD_cons_succ, getD_cons_succ] at h2; exact h2
    | n + 2 =>
      rw [getD_cons_succ, getD_cons_succ, getD_cons_succ, getD_cons_succ]
      rw [getD_cons_succ, getD_cons_succ] at h1 h2
      exact ih n (by simp only [List.length_cons] at hlen; omega) h1 h2
  | case6 a b rest h ih =>
    rw [Bool.and_eq_true] at h
    have h' : isAlphaU a = true ∨ isAlphaU b = true := by
      by_contra hc
      push_neg at hc
      exact h ⟨by simp [Bool.not_eq_true] at hc ⊢; exact hc.1,
        by simp [Bool.not_eq_true] at hc ⊢; exact hc.2⟩
    rw [fixRunsF_false_cons_other rest h']
    cases i with
    | zero =>
      rcases h' with h' | h'
      · rw [getD_cons_zero] at h1; rw [h'] at h1; cases h1
      · rw [getD_cons_succ, getD_cons_zero] at h2; rw [h'] at h2; cases h2
    | succ n =>
      rw [getD_cons_succ, getD_cons_succ]
      rw [getD_cons_succ] at h1 h2
      exact ih n (by simp only [List.length_cons] at hlen ⊢; omega) h1 h2

theorem fixSingles_match {a x b : Char} (rest : List Char) (ha : isAlphaU a = true)
    (hx : isAlphaU x = false) (hb : isAlphaU b = true) :
    fixSingles (a :: x :: b :: rest) = a :: '<' :: b :: fixSingles rest := by
  simp [fixSingles, ha, hx, hb]

theorem fixSingles_nomatch {a x b : Char} (rest : List Char)
    (h : (isAlphaU a && !(isAlphaU x) && isAlphaU b) = false) :
    fixSingles (a :: x :: b :: rest) = a :: fixSingles (x :: b :: rest) := by
  simp [fixSingles, h]

theorem fixSingles_short {l : List Char}
    (h : ∀ (a x b : Char) (rest : List Char), l = a :: x :: b :: rest → False) :
    fixSingles l = l := by
  rcases l with _ | ⟨a, _ | ⟨x, _ | ⟨b, rest⟩⟩⟩
  · rfl
  · rfl
  · rfl
  · exact (h a x b rest rfl).elim

theorem fixSingles_length (l : List Char) : (fixSingles l).length = l.length := by
  induction l using fixSingles.induct with
  | case1 a x b rest h ih =>
    simp only [Bool.and_eq_true, Bool.not_eq_true'] at h
    rw [fixSingles_match rest h.1.1 h.1.2 h.2]
    simp [ih]
  | case2 a x b rest h ih =>
    rw [fixSingles_nomatch rest (by simpa using h)]
    simp [ih]
  | case3 l h => rw [fixSingles_short h]

theorem fixSingles_getD_cases (l : List Char) (i : Nat) (d : Char) :
    (fixSingles l).getD i d = l.getD i d ∨
      ((fixSingles l).getD i d = '<' ∧ isAlphaU (l.getD i d) = false) := by
  induction l using fixSingles.induct generalizing i with
  | case1 a x b rest h ih =>
    simp only [Bool.and_eq_true, Bool.not_eq_true'] at h
    rw [fixSingles_match rest h.1.1 h.1.2 h.2]
    match i with
    | 0 => left; rfl
    | 1 => right; exact ⟨rfl, h.1.2⟩
    | 2 => left; rfl
    | n + 3 =>
      rw [getD_cons_succ, getD_cons_succ, getD_cons_succ, getD_cons_succ,
        getD_cons_succ, getD_cons_succ]
      exact ih n
  | case2 a x b rest h ih =>
    rw [fixSingles_nomatch rest (by simpa using h)]
    cases i with
    | zero => left; rfl
    | succ n =>
      rw [getD_cons_succ, getD_cons_succ]
      exact ih n
  | case3 l h => left; rw [fixSingles_short h]

theorem flankedAt_cons (c : Char) (l : List Char) (k : Nat) :
    flankedAt (c :: l) (k + 2) ↔ flankedAt l (k + 1) := by
  have e1 : k + 2 - 1 = k + 1 := by omega
  have e2 : k + 1 - 1 = k := by omega
  unfold flankedAt
  rw [e1, e2, getD_cons_succ c l k, getD_cons_succ c l (k + 1), getD_cons_succ c l (k + 2)]
  simp only [List.length_cons]
  constructor
  · rintro ⟨-, h2, h3, h4, h5⟩
    exact ⟨by omega, by omega, h3, h4, h5⟩
  · rintro ⟨-, h2, h3, h4, h5⟩
    exact ⟨by omega, by omega, h3, h4, h5⟩

theorem noTwoClose_cons {c : Char} {l : List Char} (h : noTwoClose (c :: l)) :
    noTwoClose l := by
  rintro j hj ⟨hf1, hf2⟩
  have hcopy := hf1
  obtain ⟨hj1, -, -, -, -⟩ := hcopy
  obtain ⟨k, rfl⟩ : ∃ k, j = k + 1 := ⟨j - 1, by omega⟩
  have h1 := (flankedAt_cons c l k).mpr hf1
  have h2 := (flankedAt_cons c l (k + 2)).mpr hf2
  have hlt : k + 2 < (c :: l).length := by
    have hcopy2 := h1
    obtain ⟨-, hb, -⟩ := hcopy2
    omega
  exact h (k + 2) hlt ⟨h1, h2⟩

theorem fixSingles_flanked (l : List Char) :
    noTwoClose l → ∀ i : Nat, flankedAt l i → (fixSingles l).getD i ' ' = '<' := by
  induction l using fixSingles.induct with
  | case1 a x b rest h ih =>
    intro hnc i hf
    simp only [Bool.and_eq_true, Bool.not_eq_true'] at h
    obtain ⟨⟨ha, hx⟩, hb⟩ := h
    rw [fixSingles_match rest ha hx hb]
    match i with
    | 0 => have hcopy := hf; obtain ⟨h1, -⟩ := hcopy; omega
    | 1 => rfl
    | 2 =>
      obtain ⟨-, -, -, hmid, -⟩ := hf
      rw [getD_cons_succ, getD_cons_succ, getD_cons_zero] at hmid
      rw [hb] at hmid
      cases hmid
    | 3 =>
      have hlen3 : 4 < (a :: x :: b :: rest).length := by
        have hcopy := hf
        obtain ⟨-, hb, -⟩ := hcopy
        exact hb
      have hf1 : flankedAt (a :: x :: b :: rest) 1 := by
        refine ⟨le_refl 1, ?_, ?_, ?_, ?_⟩
        · simp only [List.length_cons] at hlen3 ⊢
          omega
        · exact ha
        · exact hx
        · exact hb
      exact absurd ⟨hf1, hf⟩ (hnc 1 (by simp only [List.length_cons] at hlen3 ⊢; omega))
    | n + 4 =>
      have hfr : flankedAt rest (n + 1) := by
        have t1 := (flankedAt_cons a (x :: b :: rest) (n + 2)).mp hf
        have t2 := (flankedAt_cons x (b :: rest) (n + 1)).mp t1
        exact (flankedAt_cons b rest n).mp t2
      have hncr : noTwoClose rest := noTwoClose_cons (noTwoClose_cons (noTwoClose_cons hnc))
      rw [getD_cons_succ, getD_cons_succ, getD_cons_succ]
      exact ih hncr (n + 1) hfr
  | case2 a x b rest h ih =>
    intro hnc i hf
    rw [fixSingles_nomatch rest (by simpa using h)]
    match i with
    | 0 => have hcopy := hf; obtain ⟨h1, -⟩ := hcopy; omega
    | 1 =>
      obtain ⟨-, -, hA, hX, hB⟩ := hf
      rw [getD_cons_zero] at hA
      rw [getD_cons_succ, getD_cons_zero] at hX
      rw [getD_cons_succ, getD_cons_succ, getD_cons_zero] at hB
      rw [hA, hB] at h
      rw [hX] at h
      simp at h
    | n + 2 =>
      have hft : flankedAt (x :: b :: rest) (n + 1) := (flankedAt_cons a (x :: b :: rest) n).mp hf
      have hnct : noTwoClose (x :: b :: rest) := noTwoClose_cons hnc
      rw [getD_cons_succ]
      exact ih hnct (n + 1) hft
  | case3 l h =>
    intro hnc i hf
    rcases l with _ | ⟨a, _ | ⟨x, _ | ⟨b, rest⟩⟩⟩
    · obtain ⟨h1, h2, -⟩ := hf; simp at h2
    · obtain ⟨h1, h2, -⟩ := hf; simp only [List.length_cons, List.length_nil] at h2; omega
    · obtain ⟨h1, h2, -⟩ := hf; simp only [List.length_cons, List.length_nil] at h2; omega
    · exact (h a x b rest rfl).elim

theorem flankedAt_fixRuns (l : List Char) (i : Nat) :
    flankedAt (fixRuns l) i ↔ flankedAt l i := by
  unfold flankedAt fixRuns
  rw [fixRunsF_length, fixRunsF_alpha, fixRunsF_alpha, fixRunsF_alpha]

theorem noTwoClose_fixRuns {l : List Char} (h : noTwoClose l) : noTwoClose (fixRuns l) := by
  intro j hj hpair
  rw [fixRuns, fixRunsF_length] at hj
  exact h j hj ⟨(flankedAt_fixRuns l j).mp hpair.1, (flankedAt_fixRuns l (j + 2)).mp hpair.2⟩

/-! ### findNameEnd and cleanMRZLine1 -/

theorem foldl_congr_mem (L : List Nat) (f g : Nat → Nat → Nat) (acc : Nat)
    (h : ∀ a : Nat, ∀ i ∈ L, f a i = g a i) : L.foldl f acc = L.foldl g acc := by
  induction L generalizing acc with
  | nil => rfl
  | cons q L ih =>
    rw [List.foldl_cons, List.foldl_cons, h acc q (List.mem_cons_self q L)]
    exact ih _ fun a i hi => h a i (List.mem_cons_of_mem q hi)

theorem findNameEnd_le (l : List Char) : findNameEnd l ≤ l.length := by
  unfold findNameEnd
  have aux : ∀ (L : List Nat) (acc : Nat), (∀ i ∈ L, i + 1 ≤ l.length) → acc ≤ l.length →
      L.foldl (fun a i => if isAlphaU (l.getD i ' ') then i + 1 else a) acc ≤ l.length := by
    intro L
    induction L with
    | nil => intro acc _ h; exact h
    | cons q L ih =>
      intro acc hmem hacc
      rw [List.foldl_cons]
      apply ih
      · intro i hi; exact hmem i (List.mem_cons_of_mem q hi)
      · split
        · exact hmem q (List.mem_cons_self q L)
        · exact hacc
  apply aux
  · intro i hi; exact Nat.succ_le_of_lt (List.mem_range.mp hi)
  · exact Nat.zero_le _

theorem getD_append_self (y : List Char) (c : Char) (z : List Char) (d : Char) :
    (y ++ c :: z).getD y.length d = c := by
  rw [List.getD_append_right y (c :: z) d y.length (le_refl _), Nat.sub_self]
  rfl

theorem findNameEnd_snoc (y : List Char) (c : Char) :
    findNameEnd (y ++ [c]) = if isAlphaU c = true then y.length + 1 else findNameEnd y := by
  unfold findNameEnd
  have hlen : (y ++ [c]).length = y.length + 1 := by simp
  rw [hlen]
  have hsplit : List.range (y.length + 1) = List.range y.length ++ [y.length] := by
    simpa using List.range_succ (n := y.length)
  rw [hsplit, List.foldl_append]
  have hcongr :
      (List.range y.length).foldl
          (fun a i => if isAlphaU ((y ++ [c]).getD i ' ') then i + 1 else a) 0 =
        (List.range y.length).foldl (fun a i => if isAlphaU (y.getD i ' ') then i + 1 else a) 0 := by
    apply foldl_congr_mem
    intro a i hi
    rw [List.getD_append y [c] ' ' i (List.mem_range.mp hi)]
  rw [hcongr, List.foldl_cons, List.foldl_nil, getD_append_self]

theorem findNameEnd_append_nonalpha (x t : List Char) (h : ∀ c ∈ t, isAlphaU c = false) :
    findNameEnd (x ++ t) = findNameEnd x := by
  induction t using List.reverseRecOn with
  | nil => rw [List.append_nil]
  | append_singleton t c ih =>
    rw [← List.append_assoc, findNameEnd_snoc]
    have hc : isAlphaU c = false := h c (by simp)
    rw [hc]
    simp only [Bool.false_eq_true, if_false]
    exact ih fun b hb => h b (by simp [hb])

theorem findNameEnd_last_alpha (y : List Char) (c : Char) (h : isAlphaU c = true) :
    findNameEnd (y ++ [c]) = y.length + 1 := by
  rw [findNameEnd_snoc, if_pos h]

theorem cleanMRZLine1_ok_of_le44 (raw : List Char) (h : raw.length ≤ 44) :
    ∃ out, cleanMRZLine1 raw = Except.ok out ∧ out.length = 44 := by
  have hl0 : (padEnd44 raw).length = 44 := by rw [padEnd44_length]; omega
  unfold cleanMRZLine1
  simp only []
  split
  · -- position 1 repaired
    have hline : ((padEnd44 raw).take 1 ++ '<' :: (padEnd44 raw).drop 2).length = 44 := by
      simp [List.length_take, List.length_drop, hl0]
    have hne : findNameEnd (((padEnd44 raw).take 1 ++ '<' :: (padEnd44 raw).drop 2).drop 5) ≤ 39 := by
      have := findNameEnd_le (((padEnd44 raw).take 1 ++ '<' :: (padEnd44 raw).drop 2).drop 5)
      rw [List.length_drop, hline] at this
      omega
    split
    · split
      · omega
      · refine ⟨_, rfl, ?_⟩
        simp only [List.length_append, List.length_take, List.length_replicate, hline,
          List.length_drop]
        omega
    · exact ⟨_, rfl, hline⟩
  · have hne : findNameEnd ((padEnd44 raw).drop 5) ≤ 39 := by
      have := findNameEnd_le ((padEnd44 raw).drop 5)
      rw [List.length_drop, hl0] at this
      omega
    split
    · split
      · omega
      · refine ⟨_, rfl, ?_⟩
        simp only [List.length_append, List.length_take, List.length_replicate, hl0,
          List.length_drop]
        omega
    · exact ⟨_, rfl, hl0⟩

/-! ### Decimal rendering lemmas -/

theorem toDecAux_fuel (f g n : Nat) (hf : n < f) (hg : n < g) : toDecAux f n = toDecAux g n := by
  induction n using Nat.strong_induction_on generalizing f g with
  | _ n ih =>
    match f, g with
    | f' + 1, g' + 1 =>
      by_cases h : n < 10
      · simp [toDecAux, h]
      · simp only [toDecAux, h, if_false]
        congr 1
        exact ih (n / 10) (by omega) f' g' (by omega) (by omega)

theorem toDec_lt10 {n : Nat} (h : n < 10) : toDec n = [digitChar n] := by
  simp [toDec, toDecAux, h]

theorem toDec_ge10 {n : Nat} (h : 10 ≤ n) :
    toDec n = toDec (n / 10) ++ [digitChar (n % 10)] := by
  unfold toDec
  rw [show toDecAux (n + 1) n =
      if n < 10 then [digitChar n] else toDecAux n (n / 10) ++ [digitChar (n % 10)] from rfl]
  rw [if_neg (by omega)]
  congr 1
  exact toDecAux_fuel n (n / 10 + 1) (n / 10) (by omega) (by omega)

theorem toDec4 {n : Nat} (h1 : 1000 ≤ n) (h2 : n ≤ 9999) :
    toDec n = [digitChar (n / 1000), digitChar (n / 100 % 10),
      digitChar (n / 10 % 10), digitChar (n % 10)] := by
  have e2 : n / 10 / 10 = n / 100 := by omega
  have e3 : n / 100 / 10 = n / 1000 := by omega
  have e4 : n / 10 % 10 = n / 10 % 10 := rfl
  rw [toDec_ge10 (by omega : 10 ≤ n), toDec_ge10 (by omega : 10 ≤ n / 10), e2,
    toDec_ge10 (by omega : 10 ≤ n / 100), e3, toDec_lt10 (by omega : n / 1000 < 10)]
  simp

theorem pad2_two {a b : Nat} (ha : a ≤ 9) (hb : b ≤ 9) :
    pad2 (10 * a + b) = [digitChar a, digitChar b] := by
  by_cases h0 : a = 0
  · subst h0
    have e : 10 * 0 + b = b := by omega
    rw [e]
    unfold pad2
    simp only []
    rw [toDec_lt10 (by omega : b < 10), if_pos (by simp)]
    have h0c : ('0' : Char) = digitChar 0 := by decide
    rw [h0c]
  · have h10 : 10 ≤ 10 * a + b := by omega
    have hd : (10 * a + b) / 10 = a := by omega
    have hm : (10 * a + b) % 10 = b := by omega
    unfold pad2
    simp only []
    rw [toDec_ge10 h10, hd, hm, toDec_lt10 (by omega : a < 10)]
    simp

theorem digit_toNat {c : Char} (h : isDigitC c = true) :
    48 ≤ c.toNat ∧ c.toNat ≤ 57 := by
  simp only [isDigitC, Bool.and_eq_true, decide_eq_true_eq] at h
  exact h

theorem digitChar_digitVal {c : Char} (h : isDigitC c = true) :
    digitChar (digitVal c) = c := by
  unfold digitChar digitVal
  rw [Nat.add_sub_cancel' (digit_toNat h).1]
  exact Char.ofNat_toNat c

theorem digitVal_le9 {c : Char} (h : isDigitC c = true) : digitVal c ≤ 9 := by
  have := digit_toNat h
  unfold digitVal
  omega

theorem digitsToNat_two (a b : Char) :
    digitsToNat [a, b] = 10 * digitVal a + digitVal b := by
  simp [digitsToNat]

theorem digitsToNat_le99 {l : List Char} (hlen : l.length = 2)
    (hd : ∀ c ∈ l, isDigitC c = true) : digitsToNat l ≤ 99 := by
  rcases l with _ | ⟨a, _ | ⟨b, _ | ⟨c, t⟩⟩⟩ <;> simp_all
  rw [digitsToNat_two]
  have ha := digitVal_le9 hd.1
  have hb := digitVal_le9 hd.2
  omega

/-! ### Digit character case analysis -/

theorem digit_cases {c : Char} (h : isDigitC c = true) :
    c = '0' ∨ c = '1' ∨ c = '2' ∨ c = '3' ∨ c = '4' ∨ c = '5' ∨ c = '6' ∨ c = '7' ∨
      c = '8' ∨ c = '9' := by
  have h1 := digit_toNat h
  have hv : c.toNat = 48 ∨ c.toNat = 49 ∨ c.toNat = 50 ∨ c.toNat = 51 ∨ c.toNat = 52 ∨
      c.toNat = 53 ∨ c.toNat = 54 ∨ c.toNat = 55 ∨ c.toNat = 56 ∨ c.toNat = 57 := by omega
  rcases hv with h2 | h2 | h2 | h2 | h2 | h2 | h2 | h2 | h2 | h2 <;>
    rw [← Char.ofNat_toNat c, h2] <;> decide

theorem digitFixes_digit_none {c : Char} (h : isDigitC c = true) : digitFixes c = none := by
  rcases digit_cases h with rfl | rfl | rfl | rfl | rfl | rfl | rfl | rfl | rfl | rfl <;> decide

theorem fixMRZChar_digit {c : Char} (h : isDigitC c = true) : fixMRZChar c true = c := by
  unfold fixMRZChar
  rw [digitFixes_digit_none h]
  rfl

/-! ### Claim theorems -/

/-- C2: end-to-end scenario: the raw OCR text made of the two clean TD3 lines
`P<TURYILMAZ<<AHMET<<<...<` and `U123456785TUR9001015M2501017<<<...<06`
decomposes to exactly the expected 7-field record (names, mapped gender `E`,
passport number with the check digit dropped, empty national id, and the two
`DD/MM/YYYY` dates). -/
theorem claim2_end_to_end :
    parseMRZ (("P<TURYILMAZ<<AHMET".data ++ List.replicate 26 '<') ++
        '\n' :: ("U123456785TUR9001015M2501017".data ++ List.replicate 14 '<' ++ "06".data)) =
      Except.ok
        { first_name := "AHMET".data
          last_name := "YILMAZ".data
          gender := "E".data
          passport_number := "U12345678".data
          national_id_number := []
          date_of_birth := "01/01/1990".data
          date_of_expiry := "01/01/2025".data } := by
  decide

/-- C4: at every digit position of line 2 the corrector applies exactly the
`digitFixes` remap (`O/Q/D` to `0`, `I/L` to `1`, `Z` to `2`, `E` to `3`,
`A/H` to `4`, `S` to `5`, `G` to `6`, `T` to `7`, `B` to `8`); a character
that is already a digit and a character with no mapping are left unchanged;
and an `O` in the year slot of the birth-date field is rewritten to `0`
before decomposition. -/
theorem claim4_digit_corrector (raw : List Char) (p : Nat) (hp : p ∈ digitPositions) :
    ((cleanMRZLine2 raw).getD p ' ' =
      if isDigitC ((padEnd44 raw).getD p ' ') then (padEnd44 raw).getD p ' '
      else fixMRZChar ((padEnd44 raw).getD p ' ') true) ∧
    (fixMRZChar 'O' true = '0' ∧ fixMRZChar 'Q' true = '0' ∧ fixMRZChar 'D' true = '0' ∧
      fixMRZChar 'I' true = '1' ∧ fixMRZChar 'L' true = '1' ∧ fixMRZChar 'Z' true = '2' ∧
      fixMRZChar 'E' true = '3' ∧ fixMRZChar 'A' true = '4' ∧ fixMRZChar 'H' true = '4' ∧
      fixMRZChar 'S' true = '5' ∧ fixMRZChar 'G' true = '6' ∧ fixMRZChar 'T' true = '7' ∧
      fixMRZChar 'B' true = '8') ∧
    (∀ c : Char, isDigitC c = true → fixMRZChar c true = c) ∧
    (∀ c : Char, digitFixes c = none → fixMRZChar c true = c) ∧
    cleanMRZLine2 ("U123456785TURO501015M2501017".data ++ List.replicate 14 '<' ++ "06".data) =
      "U123456785TUR0501015M2501017".data ++ List.replicate 14 '<' ++ "06".data := by
  refine ⟨cleanMRZLine2_getD_digitpos raw ' ' hp, by decide, ?_, ?_, by decide⟩
  · intro c h
    exact fixMRZChar_digit h
  · intro c h
    unfold fixMRZChar
    rw [h]
    rfl

/-- Witness for C4 at the concrete position 9 of a concrete line. -/
theorem claim4_witness :
    ((cleanMRZLine2 "UO".data).getD 9 ' ' =
      if isDigitC ((padEnd44 "UO".data).getD 9 ' ') then (padEnd44 "UO".data).getD 9 ' '
      else fixMRZChar ((padEnd44 "UO".data).getD 9 ' ') true) ∧
    (fixMRZChar 'O' true = '0' ∧ fixMRZChar 'Q' true = '0' ∧ fixMRZChar 'D' true = '0' ∧
      fixMRZChar 'I' true = '1' ∧ fixMRZChar 'L' true = '1' ∧ fixMRZChar 'Z' true = '2' ∧
      fixMRZChar 'E' true = '3' ∧ fixMRZChar 'A' true = '4' ∧ fixMRZChar 'H' true = '4' ∧
      fixMRZChar 'S' true = '5' ∧ fixMRZChar 'G' true = '6' ∧ fixMRZChar 'T' true = '7' ∧
      fixMRZChar 'B' true = '8') ∧
    (∀ c : Char, isDigitC c = true → fixMRZChar c true = c) ∧
    (∀ c : Char, digitFixes c = none → fixMRZChar c true = c) ∧
    cleanMRZLine2 ("U123456785TURO501015M2501017".data ++ List.replicate 14 '<' ++ "06".data) =
      "U123456785TUR0501015M2501017".data ++ List.replicate 14 '<' ++ "06".data :=
  claim4_digit_corrector "UO".data 9 (by decide)

/-- C5 fails as stated: on an input longer than 44 characters whose letters
extend past index 43, `cleanMRZLine1` evaluates `'<'.repeat(44 - 5 - nameEnd)`
with a negative count and throws a `RangeError` instead of returning a
44-character string. -/
theorem claim5_counterexample :
    cleanMRZLine1 (List.replicate 45 'A') = Except.error MRZErr.rangeError := by
  decide

/-- C5 amended: for every input of length at most 44, `cleanMRZLine1`
terminates without error and returns a string of exactly 44 characters. -/
theorem claim5_normalizer_total (raw : List Char) (h : raw.length ≤ 44) :
    ∃ out, cleanMRZLine1 raw = Except.ok out ∧ out.length = 44 :=
  cleanMRZLine1_ok_of_le44 raw h

/-- Witness for C5 amended at a concrete 3-character input. -/
theorem claim5_witness :
    ∃ out, cleanMRZLine1 "P<A".data = Except.ok out ∧ out.length = 44 :=
  claim5_normalizer_total "P<A".data (by decide)

/-- C9: `cleanMRZLine2` always terminates, returns a list of length
`max 44 (length raw)`, and agrees with the filler-padded input at every
position outside the block 9-27 and the final check-digit slots 42-43; only
the digit positions, the nationality positions 10-12 and the gender
position 20 can ever be modified. -/
theorem claim9_line2_frame (s : List Char) (i : Nat)
    (h : ¬((9 ≤ i ∧ i ≤ 27) ∨ i = 42 ∨ i = 43)) :
    (cleanMRZLine2 s).length = max 44 s.length ∧
    (cleanMRZLine2 s).getD i ' ' = (padEnd44 s).getD i ' ' := by
  refine ⟨cleanMRZLine2_length s, ?_⟩
  refine cleanMRZLine2_getD_off s ' ' (by omega) (by omega) (by omega) (by omega) ?_
  intro hmem
  apply h
  simp only [digitPositions, List.mem_cons, List.not_mem_nil, or_false] at hmem
  omega

/-- Witness for C9 at position 0 of a concrete line. -/
theorem claim9_witness :
    (cleanMRZLine2 "AB".data).length = max 44 ("AB".data).length ∧
    (cleanMRZLine2 "AB".data).getD 0 ' ' = (padEnd44 "AB".data).getD 0 ' ' :=
  claim9_line2_frame "AB".data 0 (by omega)

/-- C3: `yymmddToDate` returns the empty string whenever the input is not
exactly 6 characters, or not all digits, or has month outside 1-12 or day
outside 1-31; otherwise it returns `DD/MM/YYYY` with a 4-digit year equal to
`1900 + yy` when `yy > 50` and `2000 + yy` otherwise; in particular
`990101` gives `01/01/1999` and `050101` gives `01/01/2005`. -/
theorem claim3_yymmddToDate (raw : List Char) :
    (raw.length ≠ 6 → yymmddToDate raw = []) ∧
    ((raw.filter isDigitC).length ≠ 6 → yymmddToDate raw = []) ∧
    (raw.length = 6 → (∀ c ∈ raw, isDigitC c = true) →
      (digitsToNat ((raw.drop 2).take 2) < 1 ∨ 12 < digitsToNat ((raw.drop 2).take 2) ∨
          digitsToNat ((raw.drop 4).take 2) < 1 ∨ 31 < digitsToNat ((raw.drop 4).take 2) →
        yymmddToDate raw = []) ∧
      (1 ≤ digitsToNat ((raw.drop 2).take 2) → digitsToNat ((raw.drop 2).take 2) ≤ 12 →
        1 ≤ digitsToNat ((raw.drop 4).take 2) → digitsToNat ((raw.drop 4).take 2) ≤ 31 →
        yymmddToDate raw =
          pad2 (digitsToNat ((raw.drop 4).take 2)) ++ '/' ::
            (pad2 (digitsToNat ((raw.drop 2).take 2)) ++ '/' ::
              toDec (if 50 < digitsToNat (raw.take 2) then 1900 + digitsToNat (raw.take 2)
                else 2000 + digitsToNat (raw.take 2))) ∧
        (toDec (if 50 < digitsToNat (raw.take 2) then 1900 + digitsToNat (raw.take 2)
            else 2000 + digitsToNat (raw.take 2))).length = 4)) ∧
    yymmddToDate "990101".data = "01/01/1999".data ∧
    yymmddToDate "050101".data = "01/01/2005".data := by
  refine ⟨?_, ?_, ?_, by decide, by decide⟩
  · intro h
    unfold yymmddToDate
    rw [if_pos h]
  · intro h
    unfold yymmddToDate
    by_cases h6 : raw.length = 6
    · rw [if_neg (fun hc => hc h6)]
      simp only []
      rw [if_pos h]
    · rw [if_pos h6]
  · intro h6 hd
    have hfil : raw.filter isDigitC = raw := List.filter_eq_self.mpr hd
    have hyy : digitsToNat (raw.take 2) ≤ 99 := by
      apply digitsToNat_le99
      · rw [List.length_take, h6]
        decide
      · intro c hc
        exact hd c (List.mem_of_mem_take hc)
    constructor
    · intro hbad
      unfold yymmddToDate
      rw [if_neg (fun hc => hc h6)]
      rw [hfil, if_neg (fun hc => hc h6)]
      rw [if_pos (by simp only [Bool.or_eq_true, decide_eq_true_eq]; tauto)]
    · intro hm1 hm2 hd1 hd2
      unfold yymmddToDate
      rw [if_neg (fun hc => hc h6)]
      rw [hfil, if_neg (fun hc => hc h6)]
      rw [if_neg (by simp only [Bool.or_eq_true, decide_eq_true_eq]; omega)]
      refine ⟨rfl, ?_⟩
      by_cases hy : 50 < digitsToNat (raw.take 2)
      · rw [if_pos hy, toDec4 (by omega) (by omega)]
        rfl
      · rw [if_neg hy, toDec4 (by omega) (by omega)]
        rfl

/-- Witness for C3 at the concrete all-digit input `450229`. -/
theorem claim3_witness :
    yymmddToDate "450229".data =
      pad2 (digitsToNat (("450229".data.drop 4).take 2)) ++ '/' ::
        (pad2 (digitsToNat (("450229".data.drop 2).take 2)) ++ '/' ::
          toDec (if 50 < digitsToNat ("450229".data.take 2)
            then 1900 + digitsToNat ("450229".data.take 2)
            else 2000 + digitsToNat ("450229".data.take 2))) :=
  (((claim3_yymmddToDate "450229".data).2.2.1 (by decide) (by decide)).2 (by decide) (by decide)
    (by decide) (by decide)).1

theorem take_one_getD (l : List Char) (d : Char) (h : 0 < l.length) :
    l.take 1 = [l.getD 0 d] := by
  cases l with
  | nil => simp at h
  | cons c t => rfl

theorem drop_take_one (l : List Char) (n : Nat) (d : Char) (h : n < l.length) :
    (l.drop n).take 1 = [l.getD n d] := by
  rw [take_one_getD (l.drop n) d (by rw [List.length_drop]; omega), getD_drop]
  simp

/-- C1 fails as stated on the "only error kind" clause: a candidate line of 45
letters survives the filter, and the normalizer then throws a `RangeError`
(negative repeat count), so an error other than the MRZ-not-found one
surfaces from `parseMRZ`. -/
theorem claim1_counterexample :
    parseMRZ (List.replicate 45 'A' ++ '\n' :: List.replicate 45 'A') =
      Except.error MRZErr.rangeError := by
  decide

/-- C1 amended: with fewer than 2 surviving candidates `parseMRZ` raises the
MRZ-not-found error carrying the candidate count and the full raw text; and
the MRZ-not-found error is the only error kind whenever the selected line-1
candidate is at most 44 characters long after sanitisation (the parse then
returns a record). -/
theorem claim1_error_surface (text : List Char) :
    ((candidatesOf text).length < 2 →
      parseMRZ text = Except.error (MRZErr.mrzNotFound (candidatesOf text).length text)) ∧
    (2 ≤ (candidatesOf text).length →
      (sanitizeMrz ((candidatesOf text).getD ((candidatesOf text).length - 2) [])).length ≤ 44 →
      ∃ r, parseMRZ text = Except.ok r) := by
  constructor
  · intro h
    unfold parseMRZ
    rw [if_pos h]
  · intro h2 hlen
    unfold parseMRZ
    rw [if_neg (by omega)]
    unfold parseTwo
    obtain ⟨out, hcl, -⟩ := cleanMRZLine1_ok_of_le44 _ hlen
    rw [hcl]
    exact ⟨_, rfl⟩

/-- Witness for C1 amended: the empty text has no candidates and errors with
count 0; the clean two-line text parses to a record. -/
theorem claim1_witness :
    parseMRZ [] = Except.error (MRZErr.mrzNotFound (candidatesOf []).length []) ∧
    ∃ r,
      parseMRZ (("P<TURYILMAZ<<AHMET".data ++ List.replicate 26 '<') ++
        '\n' :: ("U123456785TUR9001015M2501017".data ++ List.replicate 14 '<' ++ "06".data)) =
      Except.ok r :=
  ⟨(claim1_error_surface []).1 (by decide),
    (claim1_error_surface (("P<TURYILMAZ<<AHMET".data ++ List.replicate 26 '<') ++
      '\n' :: ("U123456785TUR9001015M2501017".data ++ List.replicate 14 '<' ++ "06".data))).2
      (by decide) (by decide)⟩

/-- C6: the gender field of a successfully parsed record is `E` when the
corrected line-2 character at position 20 is `M`, `K` when it is `F`, and the
character itself otherwise; and before this mapping `cleanMRZLine2` rewrites
`W`, `N` or `H` at position 20 to `M` while leaving `M`, `F` and `<`
unchanged. -/
theorem claim6_gender (t : List Char) (r : PassportRecord)
    (hok : parseMRZ t = Except.ok r) :
    (r.gender =
      (let c := (cleanMRZLine2 (sanitizeMrz
        ((candidatesOf t).getD ((candidatesOf t).length - 1) []))).getD 20 ' '
       if c = 'M' then ['E'] else if c = 'F' then ['K'] else [c])) ∧
    (∀ raw : List Char,
      (((padEnd44 raw).getD 20 ' ' = 'M' ∨ (padEnd44 raw).getD 20 ' ' = 'F' ∨
          (padEnd44 raw).getD 20 ' ' = '<') →
        (cleanMRZLine2 raw).getD 20 ' ' = (padEnd44 raw).getD 20 ' ') ∧
      (((padEnd44 raw).getD 20 ' ' = 'W' ∨ (padEnd44 raw).getD 20 ' ' = 'N' ∨
          (padEnd44 raw).getD 20 ' ' = 'H') →
        (cleanMRZLine2 raw).getD 20 ' ' = 'M')) := by
  constructor
  · unfold parseMRZ at hok
    by_cases hc : (candidatesOf t).length < 2
    · rw [if_pos hc] at hok
      cases hok
    · rw [if_neg hc] at hok
      unfold parseTwo at hok
      cases hcl : cleanMRZLine1 (sanitizeMrz
          ((candidatesOf t).getD ((candidatesOf t).length - 2) [])) with
      | error e =>
        rw [hcl] at hok
        cases hok
      | ok line1 =>
        rw [hcl] at hok
        simp only [Except.ok.injEq] at hok
        subst hok
        simp only []
        have hlen : 20 < (cleanMRZLine2 (sanitizeMrz
            ((candidatesOf t).getD ((candidatesOf t).length - 1) []))).length := by
          rw [cleanMRZLine2_length]
          omega
        rw [drop_take_one _ 20 ' ' hlen]
        set c := (cleanMRZLine2 (sanitizeMrz
          ((candidatesOf t).getD ((candidatesOf t).length - 1) []))).getD 20 ' ' with hcdef
        by_cases hM : c = 'M'
        · simp [hM]
        · by_cases hF : c = 'F'
          · simp [hM, hF]
          · simp [hM, hF]
  · intro raw
    constructor
    · intro h3
      rw [cleanMRZLine2_getD_20 raw ' ']
      rw [if_neg]
      intro hcond
      rw [Bool.and_eq_true] at hcond
      rcases h3 with h | h | h <;> rw [h] at hcond <;> simp at hcond
    · intro h3
      rcases h3 with h | h | h <;> rw [cleanMRZLine2_getD_20 raw ' '] <;> rw [h] <;> decide

/-- Witness for C6 on the concrete clean two-line text. -/
theorem claim6_witness :
    ("E".data =
      (let c := (cleanMRZLine2 (sanitizeMrz
        ((candidatesOf (("P<TURYILMAZ<<AHMET".data ++ List.replicate 26 '<') ++
          '\n' :: ("U123456785TUR9001015M2501017".data ++
            List.replicate 14 '<' ++ "06".data))).getD
          ((candidatesOf (("P<TURYILMAZ<<AHMET".data ++ List.replicate 26 '<') ++
            '\n' :: ("U123456785TUR9001015M2501017".data ++
              List.replicate 14 '<' ++ "06".data))).length - 1) []))).getD 20 ' '
       if c = 'M' then ['E'] else if c = 'F' then ['K'] else [c])) :=
  (claim6_gender (("P<TURYILMAZ<<AHMET".data ++ List.replicate 26 '<') ++
    '\n' :: ("U123456785TUR9001015M2501017".data ++ List.replicate 14 '<' ++ "06".data))
    { first_name := "AHMET".data
      last_name := "YILMAZ".data
      gender := "E".data
      passport_number := "U12345678".data
      national_id_number := []
      date_of_birth := "01/01/1990".data
      date_of_expiry := "01/01/2025".data }
    (by decide)).1

/-- C7 fails as stated: in `A1B1C` both `1`s are single non-letters flanked
by letters, but the left-to-right non-overlapping regex scan rewrites only
the first one (the second match would need the already-consumed `B`). -/
theorem claim7_counterexample :
    flankedAt ['A', '1', 'B', '1', 'C'] 3 ∧
    fixSingles (fixRuns ['A', '1', 'B', '1', 'C']) = ['A', '<', 'B', '1', 'C'] := by
  decide

/-- C7 amended: the name-region rewrite preserves length; every character of
a run of 2 or more consecutive non-letters is rewritten to `<`; and, provided
no two letter-flanked single non-letters sit exactly two positions apart
(the non-overlapping scan), every letter-flanked single non-letter is
rewritten to `<`. -/
theorem claim7_name_rewrites (l : List Char) (i : Nat) :
    (fixSingles (fixRuns l)).length = l.length ∧
    (i + 1 < l.length → isAlphaU (l.getD i ' ') = false →
      isAlphaU (l.getD (i + 1) ' ') = false →
      (fixSingles (fixRuns l)).getD i ' ' = '<' ∧
        (fixSingles (fixRuns l)).getD (i + 1) ' ' = '<') ∧
    (noTwoClose l → flankedAt l i → (fixSingles (fixRuns l)).getD i ' ' = '<') := by
  refine ⟨?_, ?_, ?_⟩
  · rw [fixSingles_length, fixRuns, fixRunsF_length]
  · intro hlen h1 h2
    obtain ⟨hr1, hr2⟩ := fixRunsF_run false l i ' ' hlen h1 h2
    constructor
    · rcases fixSingles_getD_cases (fixRuns l) i ' ' with h | h
      · rw [h]; exact hr1
      · exact h.1
    · rcases fixSingles_getD_cases (fixRuns l) (i + 1) ' ' with h | h
      · rw [h]; exact hr2
      · exact h.1
  · intro hnc hf
    exact fixSingles_flanked (fixRuns l) (noTwoClose_fixRuns hnc) i
      ((flankedAt_fixRuns l i).mpr hf)

/-- Witness for C7 amended: in `A11B2C` the run positions 1-2 and the flanked
position 4 are all rewritten to filler. -/
theorem claim7_witness :
    ((fixSingles (fixRuns ['A', '1', '1', 'B', '2', 'C'])).getD 1 ' ' = '<' ∧
      (fixSingles (fixRuns ['A', '1', '1', 'B', '2', 'C'])).getD 2 ' ' = '<') ∧
    (fixSingles (fixRuns ['A', '1', '1', 'B', '2', 'C'])).getD 4 ' ' = '<' :=
  ⟨(claim7_name_rewrites ['A', '1', '1', 'B', '2', 'C'] 1).2.1 (by decide) (by decide)
      (by decide),
    (claim7_name_rewrites ['A', '1', '1', 'B', '2', 'C'] 4).2.2 (by decide) (by decide)⟩

/-- C8: with at least 2 surviving candidates, `parseMRZ` parses exactly the
last two candidates (in order, upper-cased and restricted to the MRZ
alphabet); two texts whose candidate lists share the same last two entries
parse identically (earlier candidates are ignored); and sanitised lines
contain only strict MRZ-alphabet characters. -/
theorem claim8_candidate_selection (t u : List Char)
    (ht : 2 ≤ (candidatesOf t).length) (hu : 2 ≤ (candidatesOf u).length)
    (hsame : (candidatesOf t).drop ((candidatesOf t).length - 2) =
      (candidatesOf u).drop ((candidatesOf u).length - 2)) :
    parseMRZ t =
      parseTwo (sanitizeMrz ((candidatesOf t).getD ((candidatesOf t).length - 2) []))
        (sanitizeMrz ((candidatesOf t).getD ((candidatesOf t).length - 1) [])) ∧
    parseMRZ t = parseMRZ u ∧
    (∀ l : List Char, (sanitizeMrz l).all isMrzChar = true) := by
  have sel2 : ∀ v : List Char, 2 ≤ (candidatesOf v).length →
      (candidatesOf v).getD ((candidatesOf v).length - 2) [] =
        ((candidatesOf v).drop ((candidatesOf v).length - 2)).getD 0 [] := by
    intro v hv
    rw [getD_drop, Nat.add_zero]
  have sel1 : ∀ v : List Char, 2 ≤ (candidatesOf v).length →
      (candidatesOf v).getD ((candidatesOf v).length - 1) [] =
        ((candidatesOf v).drop ((candidatesOf v).length - 2)).getD 1 [] := by
    intro v hv
    rw [getD_drop]
    congr 1
    omega
  refine ⟨?_, ?_, ?_⟩
  · unfold parseMRZ
    rw [if_neg (by omega)]
  · unfold parseMRZ
    rw [if_neg (by omega), if_neg (by omega), sel2 t ht, sel1 t ht, sel2 u hu, sel1 u hu,
      hsame]
  · intro l
    rw [List.all_eq_true]
    intro c hc
    exact (List.mem_filter.mp hc).2

/-- Witness for C8: a text with an extra MRZ-shaped noise line before the two
true MRZ lines parses exactly like the text with only the two lines. -/
theorem claim8_witness :
    parseMRZ (List.replicate 30 '0' ++ '\n' ::
        (("P<TURYILMAZ<<AHMET".data ++ List.replicate 26 '<') ++
          '\n' :: ("U123456785TUR9001015M2501017".data ++
            List.replicate 14 '<' ++ "06".data))) =
      parseMRZ (("P<TURYILMAZ<<AHMET".data ++ List.replicate 26 '<') ++
        '\n' :: ("U123456785TUR9001015M2501017".data ++
          List.replicate 14 '<' ++ "06".data)) :=
  (claim8_candidate_selection
    (List.replicate 30 '0' ++ '\n' ::
      (("P<TURYILMAZ<<AHMET".data ++ List.replicate 26 '<') ++
        '\n' :: ("U123456785TUR9001015M2501017".data ++
          List.replicate 14 '<' ++ "06".data)))
    (("P<TURYILMAZ<<AHMET".data ++ List.replicate 26 '<') ++
      '\n' :: ("U123456785TUR9001015M2501017".data ++
        List.replicate 14 '<' ++ "06".data))
    (by decide) (by decide) (by decide)).2.1

/-! ### Clean MRZ lines through the extractor -/

theorem splitNl_cons (c : Char) (m : List Char) :
    splitNl (c :: m) =
      if c = '\n' then [] :: splitNl m
      else
        match splitNl m with
        | [] => [[c]]
        | p :: ps => (c :: p) :: ps := by
  rw [splitNl]

theorem splitNl_no_nl {l : List Char} (h : ∀ c ∈ l, c ≠ '\n') : splitNl l = [l] := by
  induction l with
  | nil => rfl
  | cons c rest ih =>
    rw [splitNl_cons, if_neg (h c (List.mem_cons_self c rest)),
      ih fun b hb => h b (List.mem_cons_of_mem c hb)]

theorem splitNl_append {l1 l2 : List Char} (h : ∀ c ∈ l1, c ≠ '\n') :
    splitNl (l1 ++ '\n' :: l2) = l1 :: splitNl l2 := by
  induction l1 with
  | nil => simp [splitNl_cons]
  | cons c rest ih =>
    rw [List.cons_append, splitNl_cons, if_neg (h c (List.mem_cons_self c rest)),
      ih fun b hb => h b (List.mem_cons_of_mem c hb)]

theorem stripWs_id {l : List Char} (h : ∀ c ∈ l, isMrzChar c = true) : stripWs l = l := by
  apply List.filter_eq_self.mpr
  intro c hc
  rw [mrz_not_white (h c hc)]
  rfl

theorem map_upper_id {l : List Char} (h : ∀ c ∈ l, isMrzChar c = true) :
    l.map toUpperChar = l := by
  induction l with
  | nil => rfl
  | cons c t ih =>
    rw [List.map_cons, toUpperChar_of_not_lower (mrz_not_lower (h c (List.mem_cons_self c t))),
      ih fun b hb => h b (List.mem_cons_of_mem c hb)]

theorem sanitizeMrz_id {l : List Char} (h : ∀ c ∈ l, isMrzChar c = true) :
    sanitizeMrz l = l := by
  unfold sanitizeMrz
  rw [map_upper_id h]
  exact List.filter_eq_self.mpr h

theorem isCandidate_clean {l : List Char} (hlen : l.length = 44)
    (h : ∀ c ∈ l, isMrzChar c = true) : isCandidate l = true := by
  unfold isCandidate
  have hfil : l.filter isMrzCharCI = l :=
    List.filter_eq_self.mpr fun c hc => mrzCI_of_mrz (h c hc)
  rw [hfil, hlen]
  decide

theorem legacy_isCandidate_clean {l : List Char} (hlen : l.length = 44)
    (h : ∀ c ∈ l, isMrzChar c = true) : Legacy.isCandidate l = true := by
  unfold Legacy.isCandidate
  rw [hlen]
  simp only [Bool.and_eq_true, List.all_eq_true, decide_eq_true_eq]
  exact ⟨⟨by omega, by omega⟩, h⟩

theorem candidatesOf_two_clean {l1 l2 : List Char}
    (h1len : l1.length = 44) (h1 : ∀ c ∈ l1, isMrzChar c = true)
    (h2len : l2.length = 44) (h2 : ∀ c ∈ l2, isMrzChar c = true) :
    candidatesOf (l1 ++ '\n' :: l2) = [l1, l2] := by
  unfold candidatesOf
  rw [splitNl_append fun c hc => mrz_not_newline (h1 c hc),
    splitNl_no_nl fun c hc => mrz_not_newline (h2 c hc)]
  rw [List.map_cons, List.map_cons, List.map_nil, stripWs_id h1, stripWs_id h2]
  rw [List.filter_cons, List.filter_cons, List.filter_nil]
  rw [isCandidate_clean h1len h1, isCandidate_clean h2len h2]
  rfl

theorem legacy_candidatesOf_two_clean {l1 l2 : List Char}
    (h1len : l1.length = 44) (h1 : ∀ c ∈ l1, isMrzChar c = true)
    (h2len : l2.length = 44) (h2 : ∀ c ∈ l2, isMrzChar c = true) :
    Legacy.candidatesOf (l1 ++ '\n' :: l2) = [l1, l2] := by
  unfold Legacy.candidatesOf
  rw [splitNl_append fun c hc => mrz_not_newline (h1 c hc),
    splitNl_no_nl fun c hc => mrz_not_newline (h2 c hc)]
  rw [List.map_cons, List.map_cons, List.map_nil, stripWs_id h1, stripWs_id h2]
  rw [List.filter_cons, List.filter_cons, List.filter_nil]
  rw [legacy_isCandidate_clean h1len h1, legacy_isCandidate_clean h2len h2]
  rfl

/-! ### The rewrites are the identity on a clean name region -/

theorem cleanNames_id {l : List Char} (h : ∀ c ∈ l, isAlphaU c = true ∨ c = '<') :
    fixSingles (fixRuns l) = l := by
  have e : fixRuns l = fixRunsF false l := rfl
  rw [e]
  have hlen1 : (fixRunsF false l).length = l.length := fixRunsF_length false l
  have hlen2 : (fixSingles (fixRunsF false l)).length = l.length := by
    rw [fixSingles_length, hlen1]
  have hmid : ∀ i : Nat, (fixRunsF false l).getD i ' ' = l.getD i ' ' := by
    intro i
    rcases fixRunsF_getD_cases false l i ' ' with hh | ⟨hh1, hh2⟩
    · exact hh
    · by_cases hi : i < l.length
      · rcases h (l.getD i ' ') (getD_mem ' ' hi) with ha | ha
        · rw [ha] at hh2; cases hh2
        · rw [hh1, ha]
      · exfalso
        rw [List.getD_eq_default _ _ (by rw [hlen1]; omega)] at hh1
        exact absurd hh1 (by decide)
  have hfin : ∀ i : Nat, (fixSingles (fixRunsF false l)).getD i ' ' = l.getD i ' ' := by
    intro i
    rcases fixSingles_getD_cases (fixRunsF false l) i ' ' with hh | ⟨hh1, hh2⟩
    · rw [hh, hmid i]
    · rw [hmid i] at hh2
      by_cases hi : i < l.length
      · rcases h (l.getD i ' ') (getD_mem ' ' hi) with ha | ha
        · rw [ha] at hh2; cases hh2
        · rw [hh1, ha]
      · exfalso
        rw [List.getD_eq_default _ _ (by rw [fixSingles_length, hlen1]; omega)] at hh1
        exact absurd hh1 (by decide)
  apply List.ext_getElem (by rw [hlen2])
  intro i hi1 hi2
  have hx := hfin i
  rw [List.getD_eq_getElem _ ' ' hi1, List.getD_eq_getElem _ ' ' hi2] at hx
  exact hx

/-! ### Split behaviour on clean name regions -/

theorem cons1_ne_nil (c : Char) (r : List (List Char)) : cons1 c r ≠ [] := by
  cases r <;> simp [cons1]

theorem cons1_consAll (c : Char) (a : List Char) (r : List (List Char)) :
    cons1 c (consAll a r) = consAll (c :: a) r := by
  cases r <;> rfl

theorem splitFillF_false_sep (rest : List Char) :
    splitFillF false ('<' :: '<' :: rest) = [] :: splitFillF true rest := rfl

theorem splitFillF_false_cons_ne {c : Char} (rest : List Char) (h : c ≠ '<') :
    splitFillF false (c :: rest) = cons1 c (splitFillF false rest) := by
  rcases rest with _ | ⟨d, rest'⟩
  · simp [splitFillF, h]
  · simp [splitFillF, h]

theorem splitFillF_true_cons_ne {c : Char} (rest : List Char) (h : c ≠ '<') :
    splitFillF true (c :: rest) = cons1 c (splitFillF false rest) := by
  simp [splitFillF, h]

theorem splitFillF_true_filler (rest : List Char) :
    splitFillF true ('<' :: rest) = splitFillF true rest := by
  simp [splitFillF]

theorem splitFillF_ne_nil (f : Bool) (l : List Char) : splitFillF f l ≠ [] := by
  induction f, l using splitFillF.induct with
  | case1 => decide
  | case2 rest ih => rw [splitFillF_true_filler]; exact ih
  | case3 c rest h ih => rw [splitFillF_true_cons_ne rest h]; exact cons1_ne_nil c _
  | case4 => decide
  | case5 rest ih => rw [splitFillF_false_sep]; simp
  | case6 c rest h ih =>
    rcases rest with _ | ⟨d, rest'⟩
    · simp only [splitFillF]
      exact cons1_ne_nil _ _
    · by_cases hc : c = '<'
      · subst hc
        by_cases hd : d = '<'
        · exact (h rest' rfl (by rw [hd])).elim
        · simp only [splitFillF, hd]
          exact cons1_ne_nil _ _
      · rw [splitFillF_false_cons_ne _ hc]
        exact cons1_ne_nil c _

theorem splitFill_alpha_prepend {a : List Char} (l : List Char)
    (h : ∀ c ∈ a, isAlphaU c = true) :
    splitFillF false (a ++ l) = consAll a (splitFillF false l) := by
  induction a with
  | nil =>
    obtain ⟨p, ps, hr⟩ : ∃ p ps, splitFillF false l = p :: ps := by
      cases hsp : splitFillF false l with
      | nil => exact absurd hsp (splitFillF_ne_nil false l)
      | cons p ps => exact ⟨p, ps, rfl⟩
    rw [List.nil_append, hr]
    rfl
  | cons c a' ih =>
    rw [List.cons_append,
      splitFillF_false_cons_ne _ (alpha_ne_filler (h c (List.mem_cons_self c a'))),
      ih fun b hb => h b (List.mem_cons_of_mem c hb), cons1_consAll]

theorem splitFillF_true_rep (k : Nat) : splitFillF true (List.replicate k '<') = [[]] := by
  induction k with
  | zero => rfl
  | succ n ih => rw [List.replicate_succ, splitFillF_true_filler, ih]

theorem splitFill_rep_ge2 (k : Nat) :
    splitFillF false (List.replicate (k + 2) '<') = [[], []] := by
  rw [List.replicate_succ, List.replicate_succ, splitFillF_false_sep, splitFillF_true_rep]

theorem splitLit_sep (rest : List Char) : splitLit ('<' :: '<' :: rest) = [] :: splitLit rest :=
  rfl

theorem splitLit_cons_ne {c : Char} (rest : List Char) (h : c ≠ '<') :
    splitLit (c :: rest) = cons1 c (splitLit rest) := by
  rcases rest with _ | ⟨d, rest'⟩
  · simp [splitLit, h]
  · simp [splitLit, h]

theorem splitLit_ne_nil (l : List Char) : splitLit l ≠ [] := by
  induction l using splitLit.induct with
  | case1 rest ih => rw [splitLit_sep]; simp
  | case2 c rest h ih =>
    rcases rest with _ | ⟨d, rest'⟩
    · simp only [splitLit]
      exact cons1_ne_nil _ _
    · by_cases hc : c = '<'
      · subst hc
        by_cases hd : d = '<'
        · exact (h rest' rfl (by rw [hd])).elim
        · simp only [splitLit, hd]
          exact cons1_ne_nil _ _
      · rw [splitLit_cons_ne _ hc]
        exact cons1_ne_nil c _
  | case3 => decide

theorem splitLit_alpha_prepend {a : List Char} (l : List Char)
    (h : ∀ c ∈ a, isAlphaU c = true) :
    splitLit (a ++ l) = consAll a (splitLit l) := by
  induction a with
  | nil =>
    obtain ⟨p, ps, hr⟩ : ∃ p ps, splitLit l = p :: ps := by
      cases hsp : splitLit l with
      | nil => exact absurd hsp (splitLit_ne_nil l)
      | cons p ps => exact ⟨p, ps, rfl⟩
    rw [List.nil_append, hr]
    rfl
  | cons c a' ih =>
    rw [List.cons_append,
      splitLit_cons_ne _ (alpha_ne_filler (h c (List.mem_cons_self c a'))),
      ih fun b hb => h b (List.mem_cons_of_mem c hb), cons1_consAll]

theorem splitLit_rep_junk (k : Nat) :
    ∀ p ∈ splitLit (List.replicate k '<'), p = [] ∨ p = ['<'] := by
  induction k using Nat.strong_induction_on with
  | _ k ih =>
    match k with
    | 0 => intro p hp; simp [splitLit] at hp; left; exact hp
    | 1 =>
      intro p hp
      have : splitLit (List.replicate 1 '<') = [['<']] := rfl
      rw [this] at hp
      simp at hp
      right; exact hp
    | k + 2 =>
      rw [List.replicate_succ, List.replicate_succ, splitLit_sep]
      intro p hp
      rcases List.mem_cons.mp hp with rfl | hp2
      · left; rfl
      · exact ih k (by omega) p hp2

/-! ### Join and trim on clean name parts -/

theorem joinSpace_single (p : List Char) : joinSpace [p] = p := rfl

theorem joinSpace_cons_append (a p : List Char) (ps : List (List Char)) :
    joinSpace ((a ++ p) :: ps) = a ++ joinSpace (p :: ps) := by
  cases ps <;> simp [joinSpace, List.append_assoc]

theorem mem_joinSpace {parts : List (List Char)} {c : Char} (h : c ∈ joinSpace parts) :
    c = ' ' ∨ ∃ p ∈ parts, c ∈ p := by
  induction parts with
  | nil => cases h
  | cons p ps ih =>
    cases ps with
    | nil =>
      right
      exact ⟨p, List.mem_cons_self p [], h⟩
    | cons q qs =>
      rw [show joinSpace (p :: q :: qs) = p ++ ' ' :: joinSpace (q :: qs) from rfl] at h
      rcases List.mem_append.mp h with h1 | h1
      · right; exact ⟨p, List.mem_cons_self p _, h1⟩
      · rcases List.mem_cons.mp h1 with rfl | h2
        · left; rfl
        · rcases ih h2 with h3 | ⟨r, hr1, hr2⟩
          · left; exact h3
          · right; exact ⟨r, List.mem_cons_of_mem p hr1, hr2⟩

theorem map_ltsp_alpha_id {x : List Char} (h : ∀ c ∈ x, isAlphaU c = true) :
    x.map (fun c => if c = '<' then ' ' else c) = x := by
  induction x with
  | nil => rfl
  | cons c t ih =>
    rw [List.map_cons, if_neg (alpha_ne_filler (h c (List.mem_cons_self c t))),
      ih fun b hb => h b (List.mem_cons_of_mem c hb)]

theorem filter_alpha_space_id {x : List Char} (h : ∀ c ∈ x, isAlphaU c = true ∨ c = ' ') :
    x.filter (fun c => isAlphaU c || c = ' ') = x := by
  apply List.filter_eq_self.mpr
  intro c hc
  rcases h c hc with h1 | h1 <;> simp [h1]

theorem dropWhile_append_all {p : Char → Bool} {a : List Char} (b : List Char)
    (h : ∀ c ∈ a, p c = true) : (a ++ b).dropWhile p = b.dropWhile p := by
  induction a with
  | nil => rfl
  | cons c t ih =>
    rw [List.cons_append, List.dropWhile_cons, if_pos (by rw [h c (List.mem_cons_self c t)])]
    exact ih fun d hd => h d (List.mem_cons_of_mem c hd)

theorem dropWhile_all_false {p : Char → Bool} {m : List Char}
    (h : ∀ c ∈ m, p c = false) : m.dropWhile p = m := by
  cases m with
  | nil => rfl
  | cons c t =>
    rw [List.dropWhile_cons, if_neg (by rw [h c (List.mem_cons_self c t)]; simp)]

theorem trimJs_no_white {x : List Char} (h : ∀ c ∈ x, isJsWhite c = false) : trimJs x = x := by
  unfold trimJs
  rw [dropWhile_all_false h, dropWhile_all_false (fun c hc => h c (List.mem_reverse.mp hc)),
    List.reverse_reverse]

theorem dropWhile_all_true {p : Char → Bool} {t : List Char}
    (h : ∀ c ∈ t, p c = true) : t.dropWhile p = [] := by
  induction t with
  | nil => rfl
  | cons c r ih =>
    rw [List.dropWhile_cons, if_pos (by rw [h c (List.mem_cons_self c r)])]
    exact ih fun d hd => h d (List.mem_cons_of_mem c hd)

theorem trimJs_alpha_pad {x t : List Char} (hxA : ∀ c ∈ x, isAlphaU c = true)
    (ht : ∀ c ∈ t, isJsWhite c = true) : trimJs (x ++ t) = x := by
  have hx : ∀ c ∈ x, isJsWhite c = false := fun c hc => alpha_not_white (hxA c hc)
  unfold trimJs
  cases x with
  | nil =>
    rw [List.nil_append, dropWhile_all_true ht]
    rfl
  | cons c x' =>
    rw [List.cons_append, List.dropWhile_cons,
      if_neg (by rw [hx c (List.mem_cons_self c x')]; simp), ← List.cons_append,
      List.reverse_append,
      dropWhile_append_all _ fun d hd => ht d (List.mem_reverse.mp hd),
      dropWhile_all_false fun d hd => hx d (List.mem_reverse.mp hd),
      List.reverse_reverse]

/-! ### The two date formatters agree on in-range all-digit input -/

theorem takeWhile_two_digits {u v : Char} (hu : isDigitC u = true) (hv : isDigitC v = true) :
    ([u, v].takeWhile isDigitC) = [u, v] := by
  simp [List.takeWhile_cons, hu, hv]

theorem dates_agree {u v w x y z : Char}
    (hu : isDigitC u = true) (hv : isDigitC v = true) (hw : isDigitC w = true)
    (hx : isDigitC x = true) (hy : isDigitC y = true) (hz : isDigitC z = true)
    (hm1 : 1 ≤ 10 * digitVal w + digitVal x) (hm2 : 10 * digitVal w + digitVal x ≤ 12)
    (hd1 : 1 ≤ 10 * digitVal y + digitVal z) (hd2 : 10 * digitVal y + digitVal z ≤ 31) :
    yymmddToDate [u, v, w, x, y, z] = Legacy.yymmddToDate [u, v, w, x, y, z] := by
  have hdu := digitVal_le9 hu
  have hdv := digitVal_le9 hv
  have hdw := digitVal_le9 hw
  have hdx := digitVal_le9 hx
  have hdy := digitVal_le9 hy
  have hdz := digitVal_le9 hz
  have hfil : [u, v, w, x, y, z].filter isDigitC = [u, v, w, x, y, z] := by
    simp [List.filter, hu, hv, hw, hx, hy, hz]
  have e1 : ([u, v, w, x, y, z].filter isDigitC).take 2 = [u, v] := by rw [hfil]; rfl
  have e2 : (([u, v, w, x, y, z].filter isDigitC).drop 2).take 2 = [w, x] := by rw [hfil]; rfl
  have e3 : (([u, v, w, x, y, z].filter isDigitC).drop 4).take 2 = [y, z] := by rw [hfil]; rfl
  have hcont : ([u, v, w, x, y, z].contains '<') = false := by
    rw [Bool.eq_false_iff]
    intro hel
    have hmem : '<' ∈ [u, v, w, x, y, z] := by
      simpa [List.contains] using hel
    simp only [List.mem_cons, List.not_mem_nil, or_false] at hmem
    rcases hmem with h | h | h | h | h | h <;> subst h <;> simp_all [isDigitC]
  -- current parser side
  unfold yymmddToDate
  rw [if_neg (fun hc => hc rfl)]
  simp only []
  rw [e1, e2, e3, digitsToNat_two, digitsToNat_two, digitsToNat_two]
  rw [if_neg (by rw [hfil]; intro hc; exact hc rfl)]
  have hguard : ¬((decide (10 * digitVal w + digitVal x < 1) ||
      decide (12 < 10 * digitVal w + digitVal x) ||
      decide (10 * digitVal y + digitVal z < 1) ||
      decide (31 < 10 * digitVal y + digitVal z)) = true) := by
    simp only [Bool.or_eq_true, decide_eq_true_eq]
    omega
  rw [if_neg hguard]
  rw [pad2_two hdy hdz, pad2_two hdw hdx, digitChar_digitVal hy, digitChar_digitVal hz,
    digitChar_digitVal hw, digitChar_digitVal hx]
  -- legacy parser side
  unfold Legacy.yymmddToDate
  have hgl : (decide (([u, v, w, x, y, z] : List Char).length ≠ 6) ||
      [u, v, w, x, y, z].contains '<') = false := by
    rw [hcont]
    simp
  rw [hgl, if_neg (show ¬(false = true) from by simp)]
  simp only []
  unfold jsParseIntHead
  rw [show ([u, v, w, x, y, z].take 2) = [u, v] from rfl, takeWhile_two_digits hu hv]
  simp only [List.isEmpty_cons, Bool.false_eq_true, if_false]
  rw [digitsToNat_two]
  rw [show List.take 2 (List.drop 4 [u, v, w, x, y, z]) = [y, z] from rfl,
    show List.take 2 (List.drop 2 [u, v, w, x, y, z]) = [w, x] from rfl]
  by_cases hyy : 50 < 10 * digitVal u + digitVal v
  · rw [if_pos hyy, if_pos hyy, toDec4 (by omega) (by omega)]
    have g1 : (1900 + (10 * digitVal u + digitVal v)) / 1000 = 1 := by omega
    have g2 : (1900 + (10 * digitVal u + digitVal v)) / 100 % 10 = 9 := by omega
    have g3 : (1900 + (10 * digitVal u + digitVal v)) / 10 % 10 = digitVal u := by omega
    have g4 : (1900 + (10 * digitVal u + digitVal v)) % 10 = digitVal v := by omega
    rw [g1, g2, g3, g4, digitChar_digitVal hu, digitChar_digitVal hv]
    have c1 : digitChar 1 = '1' := by decide
    have c9 : digitChar 9 = '9' := by decide
    rw [c1, c9]
    simp
  · rw [if_neg hyy, if_neg hyy, toDec4 (by omega) (by omega)]
    have g1 : (2000 + (10 * digitVal u + digitVal v)) / 1000 = 2 := by omega
    have g2 : (2000 + (10 * digitVal u + digitVal v)) / 100 % 10 = 0 := by omega
    have g3 : (2000 + (10 * digitVal u + digitVal v)) / 10 % 10 = digitVal u := by omega
    have g4 : (2000 + (10 * digitVal u + digitVal v)) % 10 = digitVal v := by omega
    rw [g1, g2, g3, g4, digitChar_digitVal hu, digitChar_digitVal hv]
    have c2 : digitChar 2 = '2' := by decide
    have c0 : digitChar 0 = '0' := by decide
    rw [c2, c0]
    simp

/-! ### Name decomposition on a clean name region -/

theorem region_split_current {sur giv : List Char} (k : Nat)
    (hsurA : ∀ c ∈ sur, isAlphaU c = true)
    (hgivA : ∀ c ∈ giv, isAlphaU c = true) (hgiv0 : giv ≠ []) :
    splitFill (sur ++ '<' :: '<' :: (giv ++ List.replicate k '<')) =
      sur :: consAll giv (splitFill (List.replicate k '<')) := by
  unfold splitFill
  rw [splitFill_alpha_prepend _ hsurA, splitFillF_false_sep]
  obtain ⟨gc, giv', rfl⟩ : ∃ gc giv', giv = gc :: giv' := by
    cases giv with
    | nil => exact absurd rfl hgiv0
    | cons gc giv' => exact ⟨gc, giv', rfl⟩
  rw [List.cons_append,
    splitFillF_true_cons_ne _ (alpha_ne_filler (hgivA gc (List.mem_cons_self gc giv'))),
    splitFill_alpha_prepend _ fun b hb => hgivA b (List.mem_cons_of_mem gc hb),
    cons1_consAll]
  simp [consAll]

theorem region_split_legacy {sur giv : List Char} (k : Nat)
    (hsurA : ∀ c ∈ sur, isAlphaU c = true)
    (hgivA : ∀ c ∈ giv, isAlphaU c = true) :
    splitLit (sur ++ '<' :: '<' :: (giv ++ List.replicate k '<')) =
      sur :: consAll giv (splitLit (List.replicate k '<')) := by
  rw [splitLit_alpha_prepend _ hsurA, splitLit_sep, splitLit_alpha_prepend _ hgivA]
  simp [consAll]

theorem lastName_eval {sur : List Char} (hsurA : ∀ c ∈ sur, isAlphaU c = true) :
    trimJs ((sur.map fun c => if c = '<' then ' ' else c).filter
      fun c => isAlphaU c || c = ' ') = sur := by
  rw [map_ltsp_alpha_id hsurA, filter_alpha_space_id fun c hc => Or.inl (hsurA c hc),
    trimJs_no_white fun c hc => alpha_not_white (hsurA c hc)]

theorem lastName_eval_legacy {sur : List Char} (hsurA : ∀ c ∈ sur, isAlphaU c = true) :
    trimJs (sur.map fun c => if c = '<' then ' ' else c) = sur := by
  rw [map_ltsp_alpha_id hsurA, trimJs_no_white fun c hc => alpha_not_white (hsurA c hc)]

theorem firstName_eval {giv : List Char} (k : Nat)
    (hgivA : ∀ c ∈ giv, isAlphaU c = true) :
    trimJs (((joinSpace (consAll giv (splitFill (List.replicate k '<')))).map
      fun c => if c = '<' then ' ' else c).filter fun c => isAlphaU c || c = ' ') = giv := by
  have hmapg := map_ltsp_alpha_id hgivA
  have hfilg : giv.filter (fun c => isAlphaU c || c = ' ') = giv :=
    filter_alpha_space_id fun c hc => Or.inl (hgivA c hc)
  have htrimg : trimJs giv = giv := trimJs_no_white fun c hc => alpha_not_white (hgivA c hc)
  have hk : k = 0 ∨ k = 1 ∨ ∃ m, k = m + 2 := by
    rcases Nat.lt_or_ge k 2 with h2 | h2
    · interval_cases k
      · exact Or.inl rfl
      · exact Or.inr (Or.inl rfl)
    · exact Or.inr (Or.inr ⟨k - 2, by omega⟩)
  rcases hk with rfl | rfl | ⟨m, rfl⟩
  · rw [show splitFill (List.replicate 0 '<') = [[]] from rfl]
    rw [show consAll giv [[]] = [giv ++ []] from rfl, List.append_nil, joinSpace_single,
      hmapg, hfilg, htrimg]
  · rw [show splitFill (List.replicate 1 '<') = [['<']] from rfl]
    rw [show consAll giv [['<']] = [giv ++ ['<']] from rfl, joinSpace_single, List.map_append,
      hmapg, List.filter_append, hfilg]
    rw [show (['<'].map fun c => if c = '<' then ' ' else c) = [' '] from rfl]
    rw [show ([' '].filter fun c => isAlphaU c || c = ' ') = [' '] from by decide]
    exact trimJs_alpha_pad hgivA (by decide)
  · rw [show splitFill (List.replicate (m + 2) '<') = [[], []] from splitFill_rep_ge2 m]
    rw [show consAll giv [[], []] = [giv ++ [], []] from rfl, List.append_nil]
    rw [show joinSpace [giv, []] = giv ++ [' '] from by
      cases giv <;> simp [joinSpace]]
    rw [List.map_append, hmapg, List.filter_append, hfilg]
    rw [show ([' '].map fun c => if c = '<' then ' ' else c) = [' '] from rfl]
    rw [show ([' '].filter fun c => isAlphaU c || c = ' ') = [' '] from by decide]
    exact trimJs_alpha_pad hgivA (by decide)

theorem firstName_eval_legacy {giv : List Char} (k : Nat)
    (hgivA : ∀ c ∈ giv, isAlphaU c = true) :
    trimJs ((joinSpace (consAll giv (splitLit (List.replicate k '<')))).map
      fun c => if c = '<' then ' ' else c) = giv := by
  obtain ⟨p0, ps, hps⟩ : ∃ p0 ps, splitLit (List.replicate k '<') = p0 :: ps := by
    cases hsp : splitLit (List.replicate k '<') with
    | nil => exact absurd hsp (splitLit_ne_nil _)
    | cons p0 ps => exact ⟨p0, ps, rfl⟩
  have hjunk := splitLit_rep_junk k
  rw [hps] at hjunk
  rw [hps, show consAll giv (p0 :: ps) = (giv ++ p0) :: ps from rfl, joinSpace_cons_append,
    List.map_append, map_ltsp_alpha_id hgivA]
  apply trimJs_alpha_pad hgivA
  intro c hc
  obtain ⟨b, hb1, hb2⟩ := List.mem_map.mp hc
  rcases mem_joinSpace hb1 with rfl | ⟨p, hp1, hp2⟩
  · rw [← hb2]
    decide
  · rcases hjunk p hp1 with rfl | rfl
    · cases hp2
    · rcases List.mem_singleton.mp hp2 with rfl
      rw [← hb2]
      decide

/-! ### The normalizer is the identity on a clean line 1 -/

theorem findNameEnd_region {sur giv : List Char} (k : Nat)
    (hgivA : ∀ c ∈ giv, isAlphaU c = true) (hgiv0 : giv ≠ []) :
    findNameEnd (sur ++ '<' :: '<' :: (giv ++ List.replicate k '<')) =
      sur.length + giv.length + 2 := by
  have hreg : sur ++ '<' :: '<' :: (giv ++ List.replicate k '<') =
      (sur ++ '<' :: '<' :: giv) ++ List.replicate k '<' := by
    simp [List.append_assoc]
  rw [hreg, findNameEnd_append_nonalpha _ _ fun c hc => by
    rw [(List.eq_of_mem_replicate hc : c = '<')]
    exact filler_not_alpha]
  obtain ⟨giv0, gl, rfl⟩ : ∃ giv0 gl, giv = giv0 ++ [gl] := by
    rcases List.eq_nil_or_concat giv with h | ⟨giv0, gl, h⟩
    · exact absurd h hgiv0
    · exact ⟨giv0, gl, by rw [h, List.concat_eq_append]⟩
  have hx : sur ++ '<' :: '<' :: (giv0 ++ [gl]) = (sur ++ '<' :: '<' :: giv0) ++ [gl] := by
    simp [List.append_assoc]
  rw [hx, findNameEnd_last_alpha _ _ (hgivA gl (by simp))]
  simp [List.length_append]
  omega

theorem cleanMRZLine1_clean (a1 a2 a3 : Char) {sur giv : List Char}
    (hsurA : ∀ c ∈ sur, isAlphaU c = true)
    (hgivA : ∀ c ∈ giv, isAlphaU c = true) (hgiv0 : giv ≠ [])
    (hlen : sur.length + giv.length ≤ 37) :
    cleanMRZLine1 ('P' :: '<' :: a1 :: a2 :: a3 :: (sur ++ '<' :: '<' ::
        (giv ++ List.replicate (37 - sur.length - giv.length) '<'))) =
      Except.ok ('P' :: '<' :: a1 :: a2 :: a3 :: (sur ++ '<' :: '<' ::
        (giv ++ List.replicate (37 - sur.length - giv.length) '<'))) := by
  have hL1len : ('P' :: '<' :: a1 :: a2 :: a3 :: (sur ++ '<' :: '<' ::
      (giv ++ List.replicate (37 - sur.length - giv.length) '<'))).length = 44 := by
    simp [List.length_append, List.length_cons, List.length_replicate]
    omega
  unfold cleanMRZLine1
  simp only []
  rw [padEnd44_eq_self hL1len]
  rw [if_neg (show ¬('P' :: '<' :: a1 :: a2 :: a3 :: (sur ++ '<' :: '<' ::
      (giv ++ List.replicate (37 - sur.length - giv.length) '<'))).getD 1 '<' ≠ '<' from
    fun hc => hc rfl)]
  rw [show ('P' :: '<' :: a1 :: a2 :: a3 :: (sur ++ '<' :: '<' ::
      (giv ++ List.replicate (37 - sur.length - giv.length) '<'))).drop 5 =
    sur ++ '<' :: '<' :: (giv ++ List.replicate (37 - sur.length - giv.length) '<') from rfl]
  rw [findNameEnd_region _ hgivA hgiv0]
  rw [if_pos (by omega), if_neg (by omega)]
  congr 1
  rw [show ('P' :: '<' :: a1 :: a2 :: a3 :: (sur ++ '<' :: '<' ::
      (giv ++ List.replicate (37 - sur.length - giv.length) '<'))).take 5 =
    ['P', '<', a1, a2, a3] from rfl]
  have hreg : sur ++ '<' :: '<' :: (giv ++ List.replicate (37 - sur.length - giv.length) '<') =
      (sur ++ '<' :: '<' :: giv) ++ List.replicate (37 - sur.length - giv.length) '<' := by
    simp [List.append_assoc]
  rw [hreg]
  have hXlen : (sur ++ '<' :: '<' :: giv).length = sur.length + giv.length + 2 := by
    simp [List.length_append]
    omega
  rw [show sur.length + giv.length + 2 = (sur ++ '<' :: '<' :: giv).length from hXlen.symm,
    List.take_left]
  rw [show 39 - (sur ++ '<' :: '<' :: giv).length = 37 - sur.length - giv.length from by
    rw [hXlen]; omega]
  simp [List.append_assoc]

theorem length_succ_destruct {α : Type} {l : List α} {n : Nat} (h : l.length = n + 1) :
    ∃ a t, l = a :: t ∧ t.length = n := by
  cases l with
  | nil => simp at h
  | cons a t => exact ⟨a, t, rfl, by simpa using h⟩

/-- C10 fails as stated: on a clean TD3 pair whose birth-date month field is
13 (digits everywhere, as the claim requires), the legacy parser renders
`99/13/1999` while the current parser rejects the month and returns the
empty string, so the records differ. -/
theorem claim10_counterexample :
    parseMRZ (("P<TURYILMAZ<<AHMET".data ++ List.replicate 26 '<') ++
        '\n' :: ("U123456785TUR9913995M2501017".data ++ List.replicate 14 '<' ++ "06".data)) ≠
      Legacy.parseMRZ (("P<TURYILMAZ<<AHMET".data ++ List.replicate 26 '<') ++
        '\n' :: ("U123456785TUR9913995M2501017".data ++ List.replicate 14 '<' ++ "06".data)) := by
  decide

/-- If line-1 normalisation succeeds, `parseTwo` computes exactly the record
of `src/index.js`: names from the rewritten and split name section, the other
five fields from fixed slices of the corrected line 2. -/
theorem parseTwo_ok (l1raw l1 l2raw : List Char) (h : cleanMRZLine1 l1raw = Except.ok l1) :
    parseTwo l1raw l2raw = Except.ok
      { first_name := trimJs (((joinSpace ((splitFill (fixSingles (fixRuns (l1.drop 5)))).drop 1)).map
            (fun c => if c = '<' then ' ' else c)).filter (fun c => isAlphaU c || c = ' '))
        last_name := trimJs ((((splitFill (fixSingles (fixRuns (l1.drop 5)))).getD 0 []).map
            (fun c => if c = '<' then ' ' else c)).filter (fun c => isAlphaU c || c = ' '))
        gender :=
          if ((cleanMRZLine2 l2raw).drop 20).take 1 = ['M'] then ['E']
          else if ((cleanMRZLine2 l2raw).drop 20).take 1 = ['F'] then ['K']
          else ((cleanMRZLine2 l2raw).drop 20).take 1
        passport_number := trimJs (((cleanMRZLine2 l2raw).take 9).filter (fun c => !(c = '<')))
        national_id_number :=
          trimJs ((((cleanMRZLine2 l2raw).drop 28).take 14).filter (fun c => !(c = '<')))
        date_of_birth := yymmddToDate (((cleanMRZLine2 l2raw).drop 13).take 6)
        date_of_expiry := yymmddToDate (((cleanMRZLine2 l2raw).drop 21).take 6) } := by
  unfold parseTwo
  rw [h]

/-- C10 amended: on every OCR text of exactly two clean TD3 lines whose two
date fields additionally carry an in-range month (1-12) and day (1-31), the
legacy parser of `src/unnamed/part_000` and the current parser of
`src/index.js` return identical 7-field records. -/
theorem claim10_refinement (a1 a2 a3 c1 c2 c3 c4 c5 g n1 n2 n3 : Char)
    (sur giv pass dob exp pid : List Char)
    (ha1 : isMrzChar a1 = true) (ha2 : isMrzChar a2 = true) (ha3 : isMrzChar a3 = true)
    (hsurA : ∀ c ∈ sur, isAlphaU c = true) (hsur0 : sur ≠ [])
    (hgivA : ∀ c ∈ giv, isAlphaU c = true) (hgiv0 : giv ≠ [])
    (hname : sur.length + giv.length ≤ 37)
    (hpassL : pass.length = 9) (hpassM : ∀ c ∈ pass, isMrzChar c = true)
    (hdobL : dob.length = 6) (hdobD : ∀ c ∈ dob, isDigitC c = true)
    (hexpL : exp.length = 6) (hexpD : ∀ c ∈ exp, isDigitC c = true)
    (hpidL : pid.length = 14) (hpidM : ∀ c ∈ pid, isMrzChar c = true)
    (hc1 : isDigitC c1 = true) (hc2 : isDigitC c2 = true) (hc3 : isDigitC c3 = true)
    (hc4 : isDigitC c4 = true) (hc5 : isDigitC c5 = true)
    (hn1 : isAlphaU n1 = true) (hn2 : isAlphaU n2 = true) (hn3 : isAlphaU n3 = true)
    (hg : g = 'M' ∨ g = 'F' ∨ g = '<')
    (hdobM1 : 1 ≤ digitsToNat ((dob.drop 2).take 2))
    (hdobM2 : digitsToNat ((dob.drop 2).take 2) ≤ 12)
    (hdobD1 : 1 ≤ digitsToNat ((dob.drop 4).take 2))
    (hdobD2 : digitsToNat ((dob.drop 4).take 2) ≤ 31)
    (hexpM1 : 1 ≤ digitsToNat ((exp.drop 2).take 2))
    (hexpM2 : digitsToNat ((exp.drop 2).take 2) ≤ 12)
    (hexpD1 : 1 ≤ digitsToNat ((exp.drop 4).take 2))
    (hexpD2 : digitsToNat ((exp.drop 4).take 2) ≤ 31) :
    parseMRZ (('P' :: '<' :: a1 :: a2 :: a3 :: (sur ++ '<' :: '<' ::
        (giv ++ List.replicate (37 - sur.length - giv.length) '<'))) ++ '\n' ::
      (pass ++ c1 :: n1 :: n2 :: n3 ::
        (dob ++ c2 :: g :: (exp ++ c3 :: (pid ++ [c4, c5]))))) =
    Legacy.parseMRZ (('P' :: '<' :: a1 :: a2 :: a3 :: (sur ++ '<' :: '<' ::
        (giv ++ List.replicate (37 - sur.length - giv.length) '<'))) ++ '\n' ::
      (pass ++ c1 :: n1 :: n2 :: n3 ::
        (dob ++ c2 :: g :: (exp ++ c3 :: (pid ++ [c4, c5]))))) := by
  have hL1len : ('P' :: '<' :: a1 :: a2 :: a3 :: (sur ++ '<' :: '<' ::
      (giv ++ List.replicate (37 - sur.length - giv.length) '<'))).length = 44 := by
    simp [List.length_append, List.length_cons, List.length_replicate]
    omega
  have hL2len : (pass ++ c1 :: n1 :: n2 :: n3 ::
      (dob ++ c2 :: g :: (exp ++ c3 :: (pid ++ [c4, c5])))).length = 44 := by
    simp [List.length_append, List.length_cons, hpassL, hdobL, hexpL, hpidL]
  have hm1 : ∀ c ∈ ('P' :: '<' :: a1 :: a2 :: a3 :: (sur ++ '<' :: '<' ::
      (giv ++ List.replicate (37 - sur.length - giv.length) '<'))), isMrzChar c = true := by
    intro c hc
    simp only [List.mem_cons, List.mem_append, List.mem_replicate] at hc
    rcases hc with rfl | rfl | rfl | rfl | rfl | hc | rfl | rfl | hc | hc
    · decide
    · decide
    · exact ha1
    · exact ha2
    · exact ha3
    · exact mrz_of_alpha (hsurA c hc)
    · decide
    · decide
    · exact mrz_of_alpha (hgivA c hc)
    · rw [hc.2]; decide
  have hm2 : ∀ c ∈ (pass ++ c1 :: n1 :: n2 :: n3 ::
      (dob ++ c2 :: g :: (exp ++ c3 :: (pid ++ [c4, c5])))), isMrzChar c = true := by
    intro c hc
    simp only [List.mem_cons, List.mem_append, List.not_mem_nil, or_false] at hc
    rcases hc with hc | rfl | rfl | rfl | rfl | hc | rfl | rfl | hc | rfl | hc | rfl | rfl
    · exact hpassM c hc
    · exact mrz_of_digit hc1
    · exact mrz_of_alpha hn1
    · exact mrz_of_alpha hn2
    · exact mrz_of_alpha hn3
    · exact mrz_of_digit (hdobD c hc)
    · exact mrz_of_digit hc2
    · rcases hg with rfl | rfl | rfl <;> decide
    · exact mrz_of_digit (hexpD c hc)
    · exact mrz_of_digit hc3
    · exact hpidM c hc
    · exact mrz_of_digit hc4
    · exact mrz_of_digit hc5
  obtain ⟨p1, pt1, rfl, hpt1⟩ := length_succ_destruct (show pass.length = 8 + 1 by omega)
  obtain ⟨p2, pt2, rfl, hpt2⟩ := length_succ_destruct (show pt1.length = 7 + 1 by omega)
  obtain ⟨p3, pt3, rfl, hpt3⟩ := length_succ_destruct (show pt2.length = 6 + 1 by omega)
  obtain ⟨p4, pt4, rfl, hpt4⟩ := length_succ_destruct (show pt3.length = 5 + 1 by omega)
  obtain ⟨p5, pt5, rfl, hpt5⟩ := length_succ_destruct (show pt4.length = 4 + 1 by omega)
  obtain ⟨p6, pt6, rfl, hpt6⟩ := length_succ_destruct (show pt5.length = 3 + 1 by omega)
  obtain ⟨p7, pt7, rfl, hpt7⟩ := length_succ_destruct (show pt6.length = 2 + 1 by omega)
  obtain ⟨p8, pt8, rfl, hpt8⟩ := length_succ_destruct (show pt7.length = 1 + 1 by omega)
  obtain ⟨p9, pt9, rfl, hpt9⟩ := length_succ_destruct (show pt8.length = 0 + 1 by omega)
  obtain rfl := List.length_eq_zero.mp hpt9
  obtain ⟨d1, dt1, rfl, hdt1⟩ := length_succ_destruct (show dob.length = 5 + 1 by omega)
  obtain ⟨d2, dt2, rfl, hdt2⟩ := length_succ_destruct (show dt1.length = 4 + 1 by omega)
  obtain ⟨d3, dt3, rfl, hdt3⟩ := length_succ_destruct (show dt2.length = 3 + 1 by omega)
  obtain ⟨d4, dt4, rfl, hdt4⟩ := length_succ_destruct (show dt3.length = 2 + 1 by omega)
  obtain ⟨d5, dt5, rfl, hdt5⟩ := length_succ_destruct (show dt4.length = 1 + 1 by omega)
  obtain ⟨d6, dt6, rfl, hdt6⟩ := length_succ_destruct (show dt5.length = 0 + 1 by omega)
  obtain rfl := List.length_eq_zero.mp hdt6
  obtain ⟨e1, et1, rfl, het1⟩ := length_succ_destruct (show exp.length = 5 + 1 by omega)
  obtain ⟨e2, et2, rfl, het2⟩ := length_succ_destruct (show et1.length = 4 + 1 by omega)
  obtain ⟨e3, et3, rfl, het3⟩ := length_succ_destruct (show et2.length = 3 + 1 by omega)
  obtain ⟨e4, et4, rfl, het4⟩ := length_succ_destruct (show et3.length = 2 + 1 by omega)
  obtain ⟨e5, et5, rfl, het5⟩ := length_succ_destruct (show et4.length = 1 + 1 by omega)
  obtain ⟨e6, et6, rfl, het6⟩ := length_succ_destruct (show et5.length = 0 + 1 by omega)
  obtain rfl := List.length_eq_zero.mp het6
  obtain ⟨q1, qt1, rfl, hqt1⟩ := length_succ_destruct (show pid.length = 13 + 1 by omega)
  obtain ⟨q2, qt2, rfl, hqt2⟩ := length_succ_destruct (show qt1.length = 12 + 1 by omega)
  obtain ⟨q3, qt3, rfl, hqt3⟩ := length_succ_destruct (show qt2.length = 11 + 1 by omega)
  obtain ⟨q4, qt4, rfl, hqt4⟩ := length_succ_destruct (show qt3.length = 10 + 1 by omega)
  obtain ⟨q5, qt5, rfl, hqt5⟩ := length_succ_destruct (show qt4.length = 9 + 1 by omega)
  obtain ⟨q6, qt6, rfl, hqt6⟩ := length_succ_destruct (show qt5.length = 8 + 1 by omega)
  obtain ⟨q7, qt7, rfl, hqt7⟩ := length_succ_destruct (show qt6.length = 7 + 1 by omega)
  obtain ⟨q8, qt8, rfl, hqt8⟩ := length_succ_destruct (show qt7.length = 6 + 1 by omega)
  obtain ⟨q9, qt9, rfl, hqt9⟩ := length_succ_destruct (show qt8.length = 5 + 1 by omega)
  obtain ⟨q10, qt10, rfl, hqt10⟩ := length_succ_destruct (show qt9.length = 4 + 1 by omega)
  obtain ⟨q11, qt11, rfl, hqt11⟩ := length_succ_destruct (show qt10.length = 3 + 1 by omega)
  obtain ⟨q12, qt12, rfl, hqt12⟩ := length_succ_destruct (show qt11.length = 2 + 1 by omega)
  obtain ⟨q13, qt13, rfl, hqt13⟩ := length_succ_destruct (show qt12.length = 1 + 1 by omega)
  obtain ⟨q14, qt14, rfl, hqt14⟩ := length_succ_destruct (show qt13.length = 0 + 1 by omega)
  obtain rfl := List.length_eq_zero.mp hqt14
  have hchain : (p1 :: p2 :: p3 :: p4 :: p5 :: p6 :: p7 :: p8 :: p9 :: []) ++ c1 :: n1 :: n2 :: n3 :: ((d1 :: d2 :: d3 :: d4 :: d5 :: d6 :: []) ++ c2 :: g :: ((e1 :: e2 :: e3 :: e4 :: e5 :: e6 :: []) ++ c3 :: ((q1 :: q2 :: q3 :: q4 :: q5 :: q6 :: q7 :: q8 :: q9 :: q10 :: q11 :: q12 :: q13 :: q14 :: []) ++ [c4, c5]))) = p1 :: p2 :: p3 :: p4 :: p5 :: p6 :: p7 :: p8 :: p9 :: c1 :: n1 :: n2 :: n3 :: d1 :: d2 :: d3 :: d4 :: d5 :: d6 :: c2 :: g :: e1 :: e2 :: e3 :: e4 :: e5 :: e6 :: c3 :: q1 :: q2 :: q3 :: q4 :: q5 :: q6 :: q7 :: q8 :: q9 :: q10 :: q11 :: q12 :: q13 :: q14 :: c4 :: c5 :: [] := rfl
  have hdigs : ∀ p ∈ digitPositions, isDigitC ((p1 :: p2 :: p3 :: p4 :: p5 :: p6 :: p7 :: p8 :: p9 :: c1 :: n1 :: n2 :: n3 :: d1 :: d2 :: d3 :: d4 :: d5 :: d6 :: c2 :: g :: e1 :: e2 :: e3 :: e4 :: e5 :: e6 :: c3 :: q1 :: q2 :: q3 :: q4 :: q5 :: q6 :: q7 :: q8 :: q9 :: q10 :: q11 :: q12 :: q13 :: q14 :: c4 :: c5 :: []).getD p ' ') = true := by
    intro p hp
    simp only [digitPositions, List.mem_cons, List.not_mem_nil, or_false] at hp
    rcases hp with rfl | rfl | rfl | rfl | rfl | rfl | rfl | rfl | rfl | rfl | rfl | rfl | rfl | rfl | rfl | rfl | rfl
    exacts [hc1, hdobD d1 (by simp), hdobD d2 (by simp), hdobD d3 (by simp), hdobD d4 (by simp), hdobD d5 (by simp), hdobD d6 (by simp), hc2, hexpD e1 (by simp), hexpD e2 (by simp), hexpD e3 (by simp), hexpD e4 (by simp), hexpD e5 (by simp), hexpD e6 (by simp), hc3, hc4, hc5]
  have hfold : digitPositions.foldl fixDigitStep (p1 :: p2 :: p3 :: p4 :: p5 :: p6 :: p7 :: p8 :: p9 :: c1 :: n1 :: n2 :: n3 :: d1 :: d2 :: d3 :: d4 :: d5 :: d6 :: c2 :: g :: e1 :: e2 :: e3 :: e4 :: e5 :: e6 :: c3 :: q1 :: q2 :: q3 :: q4 :: q5 :: q6 :: q7 :: q8 :: q9 :: q10 :: q11 :: q12 :: q13 :: q14 :: c4 :: c5 :: []) = p1 :: p2 :: p3 :: p4 :: p5 :: p6 :: p7 :: p8 :: p9 :: c1 :: n1 :: n2 :: n3 :: d1 :: d2 :: d3 :: d4 :: d5 :: d6 :: c2 :: g :: e1 :: e2 :: e3 :: e4 :: e5 :: e6 :: c3 :: q1 :: q2 :: q3 :: q4 :: q5 :: q6 :: q7 :: q8 :: q9 :: q10 :: q11 :: q12 :: q13 :: q14 :: c4 :: c5 :: [] :=
    foldl_fix_id _ _ hdigs
  have hpadc : padEnd44 (p1 :: p2 :: p3 :: p4 :: p5 :: p6 :: p7 :: p8 :: p9 :: c1 :: n1 :: n2 :: n3 :: d1 :: d2 :: d3 :: d4 :: d5 :: d6 :: c2 :: g :: e1 :: e2 :: e3 :: e4 :: e5 :: e6 :: c3 :: q1 :: q2 :: q3 :: q4 :: q5 :: q6 :: q7 :: q8 :: q9 :: q10 :: q11 :: q12 :: q13 :: q14 :: c4 :: c5 :: []) = p1 :: p2 :: p3 :: p4 :: p5 :: p6 :: p7 :: p8 :: p9 :: c1 :: n1 :: n2 :: n3 :: d1 :: d2 :: d3 :: d4 :: d5 :: d6 :: c2 :: g :: e1 :: e2 :: e3 :: e4 :: e5 :: e6 :: c3 :: q1 :: q2 :: q3 :: q4 :: q5 :: q6 :: q7 :: q8 :: q9 :: q10 :: q11 :: q12 :: q13 :: q14 :: c4 :: c5 :: [] := padEnd44_eq_self rfl
  have hgne1 : ¬((!(((((p1 :: p2 :: p3 :: p4 :: p5 :: p6 :: p7 :: p8 :: p9 :: c1 :: n1 :: n2 :: n3 :: d1 :: d2 :: d3 :: d4 :: d5 :: d6 :: c2 :: g :: e1 :: e2 :: e3 :: e4 :: e5 :: e6 :: c3 :: q1 :: q2 :: q3 :: q4 :: q5 :: q6 :: q7 :: q8 :: q9 :: q10 :: q11 :: q12 :: q13 :: q14 :: c4 :: c5 :: []).set 10 'T').set 11 'U').set 12 'R').getD 20 ' ' = 'M' || ((((p1 :: p2 :: p3 :: p4 :: p5 :: p6 :: p7 :: p8 :: p9 :: c1 :: n1 :: n2 :: n3 :: d1 :: d2 :: d3 :: d4 :: d5 :: d6 :: c2 :: g :: e1 :: e2 :: e3 :: e4 :: e5 :: e6 :: c3 :: q1 :: q2 :: q3 :: q4 :: q5 :: q6 :: q7 :: q8 :: q9 :: q10 :: q11 :: q12 :: q13 :: q14 :: c4 :: c5 :: []).set 10 'T').set 11 'U').set 12 'R').getD 20 ' ' = 'F' || ((((p1 :: p2 :: p3 :: p4 :: p5 :: p6 :: p7 :: p8 :: p9 :: c1 :: n1 :: n2 :: n3 :: d1 :: d2 :: d3 :: d4 :: d5 :: d6 :: c2 :: g :: e1 :: e2 :: e3 :: e4 :: e5 :: e6 :: c3 :: q1 :: q2 :: q3 :: q4 :: q5 :: q6 :: q7 :: q8 :: q9 :: q10 :: q11 :: q12 :: q13 :: q14 :: c4 :: c5 :: []).set 10 'T').set 11 'U').set 12 'R').getD 20 ' ' = '<') && (((((p1 :: p2 :: p3 :: p4 :: p5 :: p6 :: p7 :: p8 :: p9 :: c1 :: n1 :: n2 :: n3 :: d1 :: d2 :: d3 :: d4 :: d5 :: d6 :: c2 :: g :: e1 :: e2 :: e3 :: e4 :: e5 :: e6 :: c3 :: q1 :: q2 :: q3 :: q4 :: q5 :: q6 :: q7 :: q8 :: q9 :: q10 :: q11 :: q12 :: q13 :: q14 :: c4 :: c5 :: []).set 10 'T').set 11 'U').set 12 'R').getD 20 ' ' = 'W' || ((((p1 :: p2 :: p3 :: p4 :: p5 :: p6 :: p7 :: p8 :: p9 :: c1 :: n1 :: n2 :: n3 :: d1 :: d2 :: d3 :: d4 :: d5 :: d6 :: c2 :: g :: e1 :: e2 :: e3 :: e4 :: e5 :: e6 :: c3 :: q1 :: q2 :: q3 :: q4 :: q5 :: q6 :: q7 :: q8 :: q9 :: q10 :: q11 :: q12 :: q13 :: q14 :: c4 :: c5 :: []).set 10 'T').set 11 'U').set 12 'R').getD 20 ' ' = 'N' || ((((p1 :: p2 :: p3 :: p4 :: p5 :: p6 :: p7 :: p8 :: p9 :: c1 :: n1 :: n2 :: n3 :: d1 :: d2 :: d3 :: d4 :: d5 :: d6 :: c2 :: g :: e1 :: e2 :: e3 :: e4 :: e5 :: e6 :: c3 :: q1 :: q2 :: q3 :: q4 :: q5 :: q6 :: q7 :: q8 :: q9 :: q10 :: q11 :: q12 :: q13 :: q14 :: c4 :: c5 :: []).set 10 'T').set 11 'U').set 12 'R').getD 20 ' ' = 'H')) = true) := by
    rcases hg with rfl | rfl | rfl <;> exact Bool.false_ne_true
  have hgne2 : ¬((!((p1 :: p2 :: p3 :: p4 :: p5 :: p6 :: p7 :: p8 :: p9 :: c1 :: n1 :: n2 :: n3 :: d1 :: d2 :: d3 :: d4 :: d5 :: d6 :: c2 :: g :: e1 :: e2 :: e3 :: e4 :: e5 :: e6 :: c3 :: q1 :: q2 :: q3 :: q4 :: q5 :: q6 :: q7 :: q8 :: q9 :: q10 :: q11 :: q12 :: q13 :: q14 :: c4 :: c5 :: []).getD 20 ' ' = 'M' || (p1 :: p2 :: p3 :: p4 :: p5 :: p6 :: p7 :: p8 :: p9 :: c1 :: n1 :: n2 :: n3 :: d1 :: d2 :: d3 :: d4 :: d5 :: d6 :: c2 :: g :: e1 :: e2 :: e3 :: e4 :: e5 :: e6 :: c3 :: q1 :: q2 :: q3 :: q4 :: q5 :: q6 :: q7 :: q8 :: q9 :: q10 :: q11 :: q12 :: q13 :: q14 :: c4 :: c5 :: []).getD 20 ' ' = 'F' || (p1 :: p2 :: p3 :: p4 :: p5 :: p6 :: p7 :: p8 :: p9 :: c1 :: n1 :: n2 :: n3 :: d1 :: d2 :: d3 :: d4 :: d5 :: d6 :: c2 :: g :: e1 :: e2 :: e3 :: e4 :: e5 :: e6 :: c3 :: q1 :: q2 :: q3 :: q4 :: q5 :: q6 :: q7 :: q8 :: q9 :: q10 :: q11 :: q12 :: q13 :: q14 :: c4 :: c5 :: []).getD 20 ' ' = '<') && ((p1 :: p2 :: p3 :: p4 :: p5 :: p6 :: p7 :: p8 :: p9 :: c1 :: n1 :: n2 :: n3 :: d1 :: d2 :: d3 :: d4 :: d5 :: d6 :: c2 :: g :: e1 :: e2 :: e3 :: e4 :: e5 :: e6 :: c3 :: q1 :: q2 :: q3 :: q4 :: q5 :: q6 :: q7 :: q8 :: q9 :: q10 :: q11 :: q12 :: q13 :: q14 :: c4 :: c5 :: []).getD 20 ' ' = 'W' || (p1 :: p2 :: p3 :: p4 :: p5 :: p6 :: p7 :: p8 :: p9 :: c1 :: n1 :: n2 :: n3 :: d1 :: d2 :: d3 :: d4 :: d5 :: d6 :: c2 :: g :: e1 :: e2 :: e3 :: e4 :: e5 :: e6 :: c3 :: q1 :: q2 :: q3 :: q4 :: q5 :: q6 :: q7 :: q8 :: q9 :: q10 :: q11 :: q12 :: q13 :: q14 :: c4 :: c5 :: []).getD 20 ' ' = 'N' || (p1 :: p2 :: p3 :: p4 :: p5 :: p6 :: p7 :: p8 :: p9 :: c1 :: n1 :: n2 :: n3 :: d1 :: d2 :: d3 :: d4 :: d5 :: d6 :: c2 :: g :: e1 :: e2 :: e3 :: e4 :: e5 :: e6 :: c3 :: q1 :: q2 :: q3 :: q4 :: q5 :: q6 :: q7 :: q8 :: q9 :: q10 :: q11 :: q12 :: q13 :: q14 :: c4 :: c5 :: []).getD 20 ' ' = 'H')) = true) := by
    rcases hg with rfl | rfl | rfl <;> exact Bool.false_ne_true
  have hcln2e : ∃ m1 m2 m3 : Char, cleanMRZLine2 (p1 :: p2 :: p3 :: p4 :: p5 :: p6 :: p7 :: p8 :: p9 :: c1 :: n1 :: n2 :: n3 :: d1 :: d2 :: d3 :: d4 :: d5 :: d6 :: c2 :: g :: e1 :: e2 :: e3 :: e4 :: e5 :: e6 :: c3 :: q1 :: q2 :: q3 :: q4 :: q5 :: q6 :: q7 :: q8 :: q9 :: q10 :: q11 :: q12 :: q13 :: q14 :: c4 :: c5 :: []) = p1 :: p2 :: p3 :: p4 :: p5 :: p6 :: p7 :: p8 :: p9 :: c1 :: m1 :: m2 :: m3 :: d1 :: d2 :: d3 :: d4 :: d5 :: d6 :: c2 :: g :: e1 :: e2 :: e3 :: e4 :: e5 :: e6 :: c3 :: q1 :: q2 :: q3 :: q4 :: q5 :: q6 :: q7 :: q8 :: q9 :: q10 :: q11 :: q12 :: q13 :: q14 :: c4 :: c5 :: [] := by
    unfold cleanMRZLine2
    simp only []
    rw [hpadc, hfold]
    rw [show (((p1 :: p2 :: p3 :: p4 :: p5 :: p6 :: p7 :: p8 :: p9 :: c1 :: n1 :: n2 :: n3 :: d1 :: d2 :: d3 :: d4 :: d5 :: d6 :: c2 :: g :: e1 :: e2 :: e3 :: e4 :: e5 :: e6 :: c3 :: q1 :: q2 :: q3 :: q4 :: q5 :: q6 :: q7 :: q8 :: q9 :: q10 :: q11 :: q12 :: q13 :: q14 :: c4 :: c5 :: []).drop 10).take 3 : List Char) = [n1, n2, n3] from rfl]
    by_cases hTUR : (([n1, n2, n3] ≠ ['T', 'U', 'R'] && natLooksTUR [n1, n2, n3]) = true)
    · rw [if_pos hTUR]
      rw [if_neg hgne1]
      exact ⟨'T', 'U', 'R', rfl⟩
    · rw [if_neg hTUR]
      rw [if_neg hgne2]
      exact ⟨n1, n2, n3, rfl⟩
  obtain ⟨m1, m2, m3, hcln2⟩ := hcln2e
  have hreg : ∀ c ∈ (sur ++ '<' :: '<' :: (giv ++ List.replicate (37 - sur.length - giv.length) '<')), isAlphaU c = true ∨ c = '<' := by
    intro c hcm
    simp only [List.mem_append, List.mem_cons, List.mem_replicate] at hcm
    rcases hcm with hcm | rfl | rfl | hcm | hcm
    · exact Or.inl (hsurA c hcm)
    · exact Or.inr rfl
    · exact Or.inr rfl
    · exact Or.inl (hgivA c hcm)
    · exact Or.inr hcm.2
  have hdd1 : isDigitC d1 = true := hdobD d1 (by simp)
  have hdd2 : isDigitC d2 = true := hdobD d2 (by simp)
  have hdd3 : isDigitC d3 = true := hdobD d3 (by simp)
  have hdd4 : isDigitC d4 = true := hdobD d4 (by simp)
  have hdd5 : isDigitC d5 = true := hdobD d5 (by simp)
  have hdd6 : isDigitC d6 = true := hdobD d6 (by simp)
  have hed1 : isDigitC e1 = true := hexpD e1 (by simp)
  have hed2 : isDigitC e2 = true := hexpD e2 (by simp)
  have hed3 : isDigitC e3 = true := hexpD e3 (by simp)
  have hed4 : isDigitC e4 = true := hexpD e4 (by simp)
  have hed5 : isDigitC e5 = true := hexpD e5 (by simp)
  have hed6 : isDigitC e6 = true := hexpD e6 (by simp)
  have hDM1 : 1 ≤ 10 * digitVal d3 + digitVal d4 := by rw [← digitsToNat_two]; exact hdobM1
  have hDM2 : 10 * digitVal d3 + digitVal d4 ≤ 12 := by rw [← digitsToNat_two]; exact hdobM2
  have hDD1 : 1 ≤ 10 * digitVal d5 + digitVal d6 := by rw [← digitsToNat_two]; exact hdobD1
  have hDD2 : 10 * digitVal d5 + digitVal d6 ≤ 31 := by rw [← digitsToNat_two]; exact hdobD2
  have hEM1 : 1 ≤ 10 * digitVal e3 + digitVal e4 := by rw [← digitsToNat_two]; exact hexpM1
  have hEM2 : 10 * digitVal e3 + digitVal e4 ≤ 12 := by rw [← digitsToNat_two]; exact hexpM2
  have hED1 : 1 ≤ 10 * digitVal e5 + digitVal e6 := by rw [← digitsToNat_two]; exact hexpD1
  have hED2 : 10 * digitVal e5 + digitVal e6 ≤ 31 := by rw [← digitsToNat_two]; exact hexpD2
  have h2f : ∀ x y : List Char, ¬(([x, y] : List (List Char)).length < 2) := by
    intro x y; simp
  have hsel2 : ∀ x y : List Char,
      ([x, y] : List (List Char)).getD (([x, y] : List (List Char)).length - 2) [] = x :=
    fun x y => rfl
  have hsel1 : ∀ x y : List Char,
      ([x, y] : List (List Char)).getD (([x, y] : List (List Char)).length - 1) [] = y :=
    fun x y => rfl
  have hdrop1 : ∀ (x : List Char) (xs : List (List Char)), (x :: xs).drop 1 = xs :=
    fun x xs => rfl
  unfold parseMRZ Legacy.parseMRZ
  simp only []
  rw [candidatesOf_two_clean hL1len hm1 hL2len hm2,
    legacy_candidatesOf_two_clean hL1len hm1 hL2len hm2]
  rw [if_neg (h2f _ _), if_neg (h2f _ _)]
  rw [hsel2, hsel1]
  rw [sanitizeMrz_id hm1, sanitizeMrz_id hm2, padEnd44_eq_self hL1len, padEnd44_eq_self hL2len]
  rw [hchain]
  rw [parseTwo_ok _ _ _ (cleanMRZLine1_clean a1 a2 a3 hsurA hgivA hgiv0 hname)]
  rw [hcln2]
  rw [show (('P' :: '<' :: a1 :: a2 :: a3 :: (sur ++ '<' :: '<' :: (giv ++ List.replicate (37 - sur.length - giv.length) '<'))).drop 5 : List Char) = sur ++ '<' :: '<' :: (giv ++ List.replicate (37 - sur.length - giv.length) '<') from rfl]
  rw [cleanNames_id hreg]
  rw [region_split_current (37 - sur.length - giv.length) hsurA hgivA hgiv0,
    region_split_legacy (37 - sur.length - giv.length) hsurA hgivA]
  simp only [List.getD_cons_zero, hdrop1]
  rw [lastName_eval hsurA, lastName_eval_legacy hsurA,
    firstName_eval (37 - sur.length - giv.length) hgivA,
    firstName_eval_legacy (37 - sur.length - giv.length) hgivA]
  rw [show (((p1 :: p2 :: p3 :: p4 :: p5 :: p6 :: p7 :: p8 :: p9 :: c1 :: m1 :: m2 :: m3 :: d1 :: d2 :: d3 :: d4 :: d5 :: d6 :: c2 :: g :: e1 :: e2 :: e3 :: e4 :: e5 :: e6 :: c3 :: q1 :: q2 :: q3 :: q4 :: q5 :: q6 :: q7 :: q8 :: q9 :: q10 :: q11 :: q12 :: q13 :: q14 :: c4 :: c5 :: []).drop 13).take 6 : List Char) = [d1, d2, d3, d4, d5, d6] from rfl,
    show (((p1 :: p2 :: p3 :: p4 :: p5 :: p6 :: p7 :: p8 :: p9 :: c1 :: m1 :: m2 :: m3 :: d1 :: d2 :: d3 :: d4 :: d5 :: d6 :: c2 :: g :: e1 :: e2 :: e3 :: e4 :: e5 :: e6 :: c3 :: q1 :: q2 :: q3 :: q4 :: q5 :: q6 :: q7 :: q8 :: q9 :: q10 :: q11 :: q12 :: q13 :: q14 :: c4 :: c5 :: []).drop 21).take 6 : List Char) = [e1, e2, e3, e4, e5, e6] from rfl]
  rw [dates_agree hdd1 hdd2 hdd3 hdd4 hdd5 hdd6 hDM1 hDM2 hDD1 hDD2,
    dates_agree hed1 hed2 hed3 hed4 hed5 hed6 hEM1 hEM2 hED1 hED2]
  rfl

/-- Witness for the amended C10: on the concrete clean TD3 pair of the sample
passport, both parsers return the same record. -/
theorem claim10_witness :
    parseMRZ (('P' :: '<' :: 'T' :: 'U' :: 'R' :: ("YILMAZ".data ++ '<' :: '<' :: ("AHMET".data ++
        List.replicate (37 - "YILMAZ".data.length - "AHMET".data.length) '<'))) ++ '\n' ::
      ("U12345678".data ++ '5' :: 'T' :: 'U' :: 'R' :: ("900101".data ++ '5' :: 'M' ::
        ("250101".data ++ '7' :: (List.replicate 14 '<' ++ ['0', '6']))))) =
    Legacy.parseMRZ (('P' :: '<' :: 'T' :: 'U' :: 'R' :: ("YILMAZ".data ++ '<' :: '<' :: ("AHMET".data ++
        List.replicate (37 - "YILMAZ".data.length - "AHMET".data.length) '<'))) ++ '\n' ::
      ("U12345678".data ++ '5' :: 'T' :: 'U' :: 'R' :: ("900101".data ++ '5' :: 'M' ::
        ("250101".data ++ '7' :: (List.replicate 14 '<' ++ ['0', '6']))))) :=
  claim10_refinement 'T' 'U' 'R' '5' '5' '7' '0' '6' 'M' 'T' 'U' 'R'
    "YILMAZ".data "AHMET".data "U12345678".data "900101".data "250101".data
    (List.replicate 14 '<')
    (by decide) (by decide) (by decide) (by decide) (by decide) (by decide) (by decide)
    (by decide) (by decide) (by decide) (by decide) (by decide) (by decide) (by decide)
    (by decide) (by decide) (by decide) (by decide) (by decide) (by decide) (by decide)
    (by decide) (by decide) (by decide) (by decide) (by decide) (by decide) (by decide)
    (by decide) (by decide) (by decide) (by decide) (by decide)

end MrzOcr
